import Mathlib

/-! # inspeqtor `metrics/process.go`: the process sampler

A shallow embedding of `processStorage.Collect`, `capturePs`, `captureVm` and
`captureCpu`, together with the parts of the Go standard library they call
(`strings.Fields`, `strconv.ParseInt`, `strconv.ParseUint`, the compiled
`timeRegexp`), followed by theorems about them.

Conventions of the embedding.

* Text (a Go `string` or `[]byte` holding UTF-8) is a `List Char`.
* A Go `int64` is an `Int` in `[-2^63, 2^63)`, a `uint64` a `Nat` below `2^64`;
  every arithmetic operation of the source is followed by an explicit
  reduction modulo `2^64` (`wrapInt64`, `wrapUint64`).
* The host (file system, the `ps` command, and the helpers of package `util`,
  which live outside `process.go`) is a parameter, `Host`.
* The metric store embedded in `processStorage` is observed through the
  sequence of `save` calls made on it.
* A Go run-time panic (index out of range) is an outcome of its own,
  `Result.panic`, distinct from a returned `error`.
* What a reader of the store sees for a metric, its raw value, is the value of
  the latest `save` call on it, and zero before any.
-/

namespace metrics

/-- Text: the characters of a Go string. -/
abbrev Text := List Char

/-! ## Go values -/

/-- The two sentinel errors of package `strconv`. -/
inductive NumErrKind
  | invalid      -- strconv.ErrSyntax
  | outOfRange   -- strconv.ErrRange
  deriving DecidableEq, Repr

/-- A Go `error` value: a `*strconv.NumError` (function, input, sentinel) or an
error handed back by the host. -/
inductive GoError
  | num (fn : String) (input : Text) (kind : NumErrKind)
  | host (msg : String)
  deriving DecidableEq, Repr

/-- Reduction of an integer to the `int64` it denotes (two's complement). -/
def wrapInt64 (z : Int) : Int := (z + 2 ^ 63) % 2 ^ 64 - 2 ^ 63

/-- Reduction of a natural number to the `uint64` it denotes. -/
def wrapUint64 (n : Nat) : Nat := n % 2 ^ 64

/-- The product `a * b` of two `int64` values, as Go computes it. -/
def mulInt64 (a b : Int) : Int := wrapInt64 (a * b)

/-- The product `a * b` of two `uint64` values, as Go computes it. -/
def mulUint64 (a b : Nat) : Nat := wrapUint64 (a * b)

/-- The sum `a + b` of two `uint64` values, as Go computes it. -/
def addUint64 (a b : Nat) : Nat := wrapUint64 (a + b)

/-- The difference `a - b` of two `uint64` values, as Go computes it. -/
def subUint64 (a b : Nat) : Nat := wrapUint64 (a + (2 ^ 64 - b % 2 ^ 64))

/-- The conversion `int64(u)` of a `uint64` value: same bits, read as signed. -/
def int64 (u : Nat) : Int := wrapInt64 (u : Int)

/-! ## Package `unicode` and `strings` -/

/-- Go `unicode.IsSpace`: the Latin-1 cases are listed in the function, the
others are the `White_Space` table. -/
def IsSpace (r : Char) : Bool :=
  let n := r.toNat
  if n ≤ 0xFF then
    n == 0x09 || n == 0x0A || n == 0x0B || n == 0x0C || n == 0x0D || n == 0x20
      || n == 0x85 || n == 0xA0
  else
    n == 0x1680 || (0x2000 ≤ n && n ≤ 0x200A) || n == 0x2028 || n == 0x2029
      || n == 0x202F || n == 0x205F || n == 0x3000

/-- The loop of `strings.Fields`: `cur` is the field being read, reversed. -/
def FieldsFrom : List Char → Text → List Text
  | cur, [] => if cur = [] then [] else [cur.reverse]
  | cur, c :: cs =>
    if IsSpace c then
      if cur = [] then FieldsFrom [] cs else cur.reverse :: FieldsFrom [] cs
    else FieldsFrom (c :: cur) cs

/-- Go `strings.Fields`: the maximal runs of non-space characters, in order. -/
def Fields (s : Text) : List Text := FieldsFrom [] s

/-! ## Package `strconv` -/

/-- An ASCII decimal digit. -/
def isDigit (c : Char) : Bool := decide ('0' ≤ c) && decide (c ≤ '9')

/-- The value of a decimal digit. -/
def digitVal (c : Char) : Nat := c.toNat - '0'.toNat

/-- The number a run of decimal digits denotes. -/
def decimal (ds : Text) : Nat := ds.foldl (fun n c => n * 10 + digitVal c) 0

/-- The loop of `strconv.ParseUint` in base 10 over the characters left, with
`n` the value read so far and `s0` the whole input: a character that is not a
decimal digit is a syntax error; a value that passes the largest
`bitSize`-bit number is a range error, returned at once together with that
largest number. -/
def ParseUintFrom (s0 : Text) (bitSize : Nat) : Nat → Text → Nat × Option GoError
  | n, [] => (n, none)
  | n, c :: cs =>
    if isDigit c = false then (0, some (.num "ParseUint" s0 .invalid))
    else if 2 ^ bitSize - 1 < n * 10 + digitVal c then
      (2 ^ bitSize - 1, some (.num "ParseUint" s0 .outOfRange))
    else ParseUintFrom s0 bitSize (n * 10 + digitVal c) cs

/-- Go `strconv.ParseUint(s, 10, bitSize)`: the value and the error. A
non-empty run of decimal digits is required (no sign, no underscore in base
10); as the package documents, a value that does not fit in `bitSize` bits
gives the largest `bitSize`-bit value together with a range error. -/
def ParseUint (s : Text) (bitSize : Nat) : Nat × Option GoError :=
  if s = [] then (0, some (.num "ParseUint" s .invalid))
  else ParseUintFrom s bitSize 0 s

/-- Go `strconv.ParseInt(s, 10, bitSize)`: the value and the error. An optional
sign is picked off, the rest goes through `ParseUint`, and the magnitude is
checked against `cutoff = 2^(bitSize-1)`. -/
def ParseInt (s : Text) (bitSize : Nat) : Int × Option GoError :=
  match s with
  | [] => (0, some (.num "ParseInt" s .invalid))
  | c :: rest =>
    let neg : Bool := c == '-'
    let body : Text := if c = '+' ∨ c = '-' then rest else s
    match ParseUint body bitSize with
    | (_, some (.num _ _ .invalid)) => (0, some (.num "ParseInt" s .invalid))
    | (un, _) =>
      let cutoff : Nat := 2 ^ (bitSize - 1)
      if !neg && decide (cutoff ≤ un) then
        (((cutoff - 1 : Nat) : Int), some (.num "ParseInt" s .outOfRange))
      else if neg && decide (cutoff < un) then
        (-(cutoff : Int), some (.num "ParseInt" s .outOfRange))
      else
        (if neg then -(un : Int) else (un : Int), none)

/-- Go `strconv.Itoa`. -/
def Itoa (i : Int) : String := toString i

/-! ## The duration pattern -/

/-- The compiled `timeRegexp`, pattern `\A(\d+):(\d\d).(\d\d)\z`, applied with
`FindStringSubmatch`: `none` when the text does not match, otherwise the three
capture groups `times[1]`, `times[2]`, `times[3]`.

`\d` is an ASCII digit. Since `:` is not a digit, group 1 can only be the
maximal run of digits the text starts with; what follows must be `:`, two
digits, one character matched by the unescaped `.` (any character but a line
feed), two digits, and the end of the text. -/
def timeRegexp_FindStringSubmatch (s : Text) : Option (Text × Text × Text) :=
  let g1 := s.takeWhile isDigit
  match s.dropWhile isDigit with
  | [colon, s1, s2, dot, c1, c2] =>
    if g1 ≠ [] ∧ colon = ':' ∧ isDigit s1 ∧ isDigit s2 ∧ dot ≠ '\n'
        ∧ isDigit c1 ∧ isDigit c2 then
      some (g1, [s1, s2], [c1, c2])
    else none
  | _ => none

/-! ## The store and the host -/

/-- One call `save(family, name, value)` on the metric store. -/
structure Sample where
  family : String
  name : String
  value : Int
  deriving DecidableEq, Repr

/-- The Go struct `processStorage`: the embedded `*storage` and the root path.
The store type is declared in `storage.go`, which is not among the sources; it
is represented by the `save` calls made on it so far, oldest first. -/
structure processStorage where
  saved : List Sample
  path : String
  deriving DecidableEq, Repr

/-- Modelled from the spec: the store method `save(family, metric, rawValue)` of
`storage.go`, which is not among the sources. A call updates the store and has
no other effect; what the store keeps for a metric (the latest raw value, the
previous value of a counter) is determined by the calls made, so the call is
recorded. -/
def processStorage.save (ps : processStorage) (family name : String) (value : Int) :
    processStorage :=
  { ps with saved := ps.saved ++ [⟨family, name, value⟩] }

/-- What the sampler reads from its host; these functions are not defined in
`process.go` and are parameters of the embedding. -/
structure Host where
  /-- The helper `util.FileExists(path)`. -/
  FileExists : String → Except GoError Bool
  /-- The call `ioutil.ReadFile(path)`. -/
  ReadFile : String → Except GoError Text
  /-- The call `exec.Command("ps", args...).CombinedOutput()`. -/
  CombinedOutput : List String → Except GoError Text
  /-- The helper `util.ReadLines(data)`. -/
  ReadLines : Text → Except GoError (List Text)

/-- How a call ends: `nil` returned, an error returned, or a run-time panic
(an index out of range). -/
inductive Result
  | nil
  | err (e : GoError)
  | panic
  deriving DecidableEq, Repr

/-! ## `process.go` -/

/-- The expression `min*60*100 + sec*100 + cs` on `uint64` values. -/
def ticksOf (min sec cs : Nat) : Nat :=
  addUint64 (addUint64 (mulUint64 (mulUint64 min 60) 100) (mulUint64 sec 100)) cs

/-- The ticks `capturePs` computes from the capture groups of a matched time
field: three `ParseUint(_, 10, 32)` calls whose errors are dropped. -/
def ticksOfMatch (times : Text × Text × Text) : Nat :=
  let min := (ParseUint times.1 32).1
  let sec := (ParseUint times.2.1 32).1
  let cs := (ParseUint times.2.2 32).1
  ticksOf min sec cs

/-- The body of `capturePs` from line 84 on, given the lines of the output. -/
def capturePsLines (ps : processStorage) (lines : List Text) : Result × processStorage :=
  match lines[1]? with
  | none => (.panic, ps)
  | some line =>
  let fields := Fields line
  match fields[0]? with
  | none => (.panic, ps)
  | some f0 =>
  match ParseInt f0 64 with
  | (_, some e) => (.err e, ps)
  | (val, none) =>
  let ps := ps.save "memory" "rss" (mulInt64 1024 val)
  match fields[1]? with
  | none => (.panic, ps)
  | some f1 =>
  match ParseInt f1 64 with
  | (_, some e) => (.err e, ps)
  | (val, none) =>
  let ps := ps.save "memory" "vsz" (mulInt64 1024 val)
  match fields[2]? with
  | none => (.panic, ps)
  | some f2 =>
  match timeRegexp_FindStringSubmatch f2 with
  | none => (.nil, ps)        -- util.Debug("Unable to parse CPU time in ..."); return nil
  | some times =>
  let ticks := ticksOfMatch times
  match fields[3]? with
  | none => (.panic, ps)
  | some f3 =>
  match timeRegexp_FindStringSubmatch f3 with
  | none => (.nil, ps)        -- util.Debug("Unable to parse User time in ..."); return nil
  | some times =>
  let uticks := ticksOfMatch times
  let ps := ps.save "cpu" "user" (int64 uticks)
  let ps := ps.save "cpu" "system" (int64 (subUint64 ticks uticks))
  (.nil, ps)

/-- The method `capturePs`. -/
def capturePs (h : Host) (ps : processStorage) (pid : Int) : Result × processStorage :=
  match h.CombinedOutput ["So", "rss,vsz,time,utime", "-p", Itoa pid] with
  | .error e => (.err e, ps)
  | .ok sout =>
  match h.ReadLines sout with
  | .error e => (.err e, ps)
  | .ok lines => capturePsLines ps lines

/-- The loop of `captureCpu` over the lines of the stat document. -/
def captureCpuLines (ps : processStorage) : List Text → Result × processStorage
  | [] => (.nil, ps)
  | line :: rest =>
    let fields := Fields line
    match fields[13]? with
    | none => (.panic, ps)
    | some f13 =>
    match ParseInt f13 64 with
    | (_, some e) => (.err e, ps)
    | (utime, none) =>
    match fields[14]? with
    | none => (.panic, ps)
    | some f14 =>
    match ParseInt f14 64 with
    | (_, some e) => (.err e, ps)
    | (stime, none) =>
    match fields[15]? with
    | none => (.panic, ps)
    | some f15 =>
    match ParseInt f15 64 with
    | (_, some e) => (.err e, ps)
    | (cutime, none) =>
    match fields[16]? with
    | none => (.panic, ps)
    | some f16 =>
    match ParseInt f16 64 with
    | (_, some e) => (.err e, ps)
    | (cstime, none) =>
    let ps := ps.save "cpu" "user" utime
    let ps := ps.save "cpu" "system" stime
    let ps := ps.save "cpu" "total_user" cutime
    let ps := ps.save "cpu" "total_system" cstime
    captureCpuLines ps rest

/-- The method `captureCpu`. -/
def captureCpu (h : Host) (ps : processStorage) (pid : Int) : Result × processStorage :=
  let dir := ps.path ++ "/" ++ Itoa pid
  match h.ReadFile (dir ++ "/stat") with
  | .error e => (.err e, ps)
  | .ok data =>
  match h.ReadLines data with
  | .error e => (.err e, ps)
  | .ok lines => captureCpuLines ps lines

/-- The loop of `captureVm` over the lines of the status document. The test
`line[0] == 'V'` reads the first byte of the line, and panics on an empty
line. -/
def captureVmLines (ps : processStorage) : List Text → Result × processStorage
  | [] => (.nil, ps)
  | line :: rest =>
    match (line)[0]? with
    | none => (.panic, ps)
    | some b =>
    if b = 'V' then
      let items := Fields line
      match items[0]? with
      | none => (.panic, ps)
      | some label =>
      if label = "VmRSS:".toList then
        match items[1]? with
        | none => (.panic, ps)
        | some tok =>
        match ParseInt tok 64 with
        | (_, some e) => (.err e, ps)
        | (val, none) => captureVmLines (ps.save "memory" "rss" (mulInt64 1024 val)) rest
      else if label = "VmSize:".toList then
        match items[1]? with
        | none => (.panic, ps)
        | some tok =>
        match ParseInt tok 64 with
        | (_, some e) => (.err e, ps)
        | (val, none) => captureVmLines (ps.save "memory" "vsz" (mulInt64 1024 val)) rest
      else captureVmLines ps rest
    else captureVmLines ps rest

/-- The method `captureVm`. -/
def captureVm (h : Host) (ps : processStorage) (pid : Int) : Result × processStorage :=
  let dir := ps.path ++ "/" ++ Itoa pid
  match h.ReadFile (dir ++ "/status") with
  | .error e => (.err e, ps)
  | .ok data =>
  match h.ReadLines data with
  | .error e => (.err e, ps)
  | .ok lines => captureVmLines ps lines

/-- The method `Collect`. -/
def Collect (h : Host) (ps : processStorage) (pid : Int) : Result × processStorage :=
  match h.FileExists ps.path with
  | .error e => (.err e, ps)
  | .ok false =>
    -- no /proc filesystem: use the ps output instead
    match capturePs h ps pid with
    | (.nil, ps) => (.nil, ps)
    | r => r
  | .ok true =>
    match captureVm h ps pid with
    | (.nil, ps) =>
      match captureCpu h ps pid with
      | (.nil, ps) => (.nil, ps)
      | r => r
    | r => r

/-! ## The form the specification gives for a time field -/

/-- The specification's pattern for a time field, `digits:digits.digits`: one or
more decimal digits, a colon, one or more decimal digits, a period, one or more
decimal digits. -/
def SpecTimeForm (s : Text) : Prop :=
  ∃ m sec cs : Text, s = m ++ ':' :: sec ++ '.' :: cs
    ∧ m ≠ [] ∧ sec ≠ [] ∧ cs ≠ []
    ∧ m.all isDigit = true ∧ sec.all isDigit = true ∧ cs.all isDigit = true

/-- A line of the status document that `captureVm` reads a value from: its
first byte is `V` and its first field is `VmRSS:` or `VmSize:`. -/
def IsVmLine (ln : Text) : Prop :=
  ln[0]? = some 'V'
    ∧ ((Fields ln)[0]? = some "VmRSS:".toList ∨ (Fields ln)[0]? = some "VmSize:".toList)

instance : DecidablePred IsVmLine := fun ln => by
  unfold IsVmLine
  exact inferInstance

/-! ## Example hosts -/

/-- The loop of `splitLines`: `cur` is the line being read, reversed. -/
def splitLinesFrom : List Char → Text → List Text
  | cur, [] => if cur = [] then [] else [cur.reverse]
  | cur, c :: cs =>
    if c = '\n' then cur.reverse :: splitLinesFrom [] cs else splitLinesFrom (c :: cur) cs

/-- A line reader for the example hosts: the text cut at each line feed. -/
def splitLines (data : Text) : List Text := splitLinesFrom [] data

/-- An example status document. -/
def exampleStatus : Text :=
  "Name:\tmysqld\nVmSize:\t 1481648 kB\nVmRSS:\t  324072 kB\nThreads:\t1\n".toList

/-- An example stat document (one line, 21 fields). -/
def exampleStat : Text :=
  "14190 (mysqld) S 1 14190 14190 0 -1 4202752 100 0 0 0 1 6 3 2 20 0 1 0\n".toList

/-- An example output of the `ps` command. -/
def examplePs : Text :=
  "   RSS      VSZ      TIME     UTIME\n  1024   316964   0:15.00   0:05.00\n".toList

/-- An example host: the root `proc` exists and holds the two documents of
process 14190; `ps` reports on process 9051 and fails on every other one. -/
def exampleHost : Host where
  FileExists := fun p => .ok (p == "proc")
  ReadFile := fun p =>
    if p = "proc/14190/status" then .ok exampleStatus
    else if p = "proc/14190/stat" then .ok exampleStat
    else .error (.host "no such file or directory")
  CombinedOutput := fun args =>
    if args = ["So", "rss,vsz,time,utime", "-p", "9051"] then .ok examplePs
    else .error (.host "exit status 1")
  ReadLines := fun data => .ok (splitLines data)

/-- An example host whose `ps` command prints the given text for every pid. -/
def psHost (out : Text) : Host where
  FileExists := fun _ => .ok false
  ReadFile := fun _ => .error (.host "no such file or directory")
  CombinedOutput := fun _ => .ok out
  ReadLines := fun data => .ok (splitLines data)

/-- An example host whose root exists and whose files all hold the given text. -/
def procHost (doc : Text) : Host where
  FileExists := fun _ => .ok true
  ReadFile := fun _ => .ok doc
  CombinedOutput := fun _ => .error (.host "exit status 1")
  ReadLines := fun data => .ok (splitLines data)

/-! ## The store as its readers see it, and repeated passes -/

/-- The constructor `NewProcessStore(path)` called without values: the six
metrics are declared and nothing is saved. -/
def NewProcessStore (path : String) : processStorage := ⟨[], path⟩

/-- Modelled from the spec: the raw value the store of `storage.go` (not among
the sources) holds for a metric, "the latest raw sample", and zero before any
save. -/
def processStorage.rawValue (ps : processStorage) (family name : String) : Int :=
  match (ps.saved.filter (fun s => s.family == family && s.name == name)).getLast? with
  | some s => s.value
  | none => 0

/-- A series of `Collect` calls on one store, each with the host as it is at
that time and a pid; the results are dropped, the store is kept. -/
def CollectAll (ps : processStorage) : List (Host × Int) → processStorage
  | [] => ps
  | (h, pid) :: rest => CollectAll (Collect h ps pid).2 rest

/-- A save to one of the four metrics of the fallback path: memory.rss,
memory.vsz, cpu.user, cpu.system. -/
def IsFallbackKey (s : Sample) : Prop :=
  (s.family = "memory" ∧ (s.name = "rss" ∨ s.name = "vsz"))
    ∨ (s.family = "cpu" ∧ (s.name = "user" ∨ s.name = "system"))

/-- The data line of a `ps` output is read in full: the output has a second
line with four fields, of which the first two parse as signed 64-bit decimal
integers and the last two match the duration pattern. -/
def ReadsAllFour (lines : List Text) : Prop :=
  ∃ ln f0 f1 f2 f3 v w t u, lines[1]? = some ln
    ∧ (Fields ln)[0]? = some f0 ∧ ParseInt f0 64 = (v, none)
    ∧ (Fields ln)[1]? = some f1 ∧ ParseInt f1 64 = (w, none)
    ∧ (Fields ln)[2]? = some f2 ∧ timeRegexp_FindStringSubmatch f2 = some t
    ∧ (Fields ln)[3]? = some f3 ∧ timeRegexp_FindStringSubmatch f3 = some u

/-! ## Arithmetic and text lemmas -/

theorem mulInt64_exact (v : Int) (hlo : -2 ^ 53 ≤ v) (hhi : v < 2 ^ 53) :
    mulInt64 1024 v = v * 1024 := by
  unfold mulInt64 wrapInt64
  norm_num at hlo hhi ⊢
  omega

theorem digitVal_le (c : Char) (h : isDigit c = true) : digitVal c ≤ 9 := by
  simp only [isDigit, Bool.and_eq_true, decide_eq_true_eq] at h
  have h2 : c.toNat ≤ '9'.toNat := h.2
  have h9 : '9'.toNat = 57 := by decide
  have h0 : '0'.toNat = 48 := by decide
  unfold digitVal
  omega

theorem decimal_pair (a b : Char) : decimal [a, b] = digitVal a * 10 + digitVal b := by
  simp [decimal]

theorem decimal_pair_le (a b : Char) (ha : isDigit a = true) (hb : isDigit b = true) :
    decimal [a, b] ≤ 99 := by
  have h1 := digitVal_le a ha
  have h2 := digitVal_le b hb
  rw [decimal_pair]
  omega

theorem takeWhile_append_stop {p : Char → Bool} (l : List Char) (x : Char) (r : List Char)
    (hl : l.all p = true) (hx : p x = false) :
    (l ++ x :: r).takeWhile p = l ∧ (l ++ x :: r).dropWhile p = x :: r := by
  induction l with
  | nil => simp [List.takeWhile, List.dropWhile, hx]
  | cons a l ih =>
    simp only [List.all_cons, Bool.and_eq_true] at hl
    simp [List.takeWhile, List.dropWhile, hl.1, ih hl.2]

theorem all_takeWhile (p : Char → Bool) (l : List Char) : (l.takeWhile p).all p = true := by
  induction l with
  | nil => simp
  | cons a l ih =>
    by_cases h : p a = true
    · simp [List.takeWhile, h]
    · simp [List.takeWhile, h]

/-- Reading more digits does not make the value smaller. -/
theorem decimalFrom_ge (cs : Text) :
    ∀ n : Nat, n ≤ cs.foldl (fun n c => n * 10 + digitVal c) n := by
  induction cs with
  | nil => intro n; simp
  | cons c cs ih =>
    intro n
    simp only [List.foldl_cons]
    have := ih (n * 10 + digitVal c)
    omega

/-- The loop of `ParseUint` on a run of digits: the value, capped at the
largest `bitSize`-bit number. -/
theorem ParseUintFrom_digits (s0 : Text) (b : Nat) (cs : Text) :
    ∀ n : Nat, cs.all isDigit = true → n ≤ 2 ^ b - 1 →
      (ParseUintFrom s0 b n cs).1
        = min (cs.foldl (fun n c => n * 10 + digitVal c) n) (2 ^ b - 1) := by
  induction cs with
  | nil => intro n _ hn; simp [ParseUintFrom, hn]
  | cons c cs ih =>
    intro n hall hn
    simp only [List.all_cons, Bool.and_eq_true] at hall
    simp only [ParseUintFrom, hall.1, List.foldl_cons]
    simp only [Bool.true_eq_false, if_false]
    split
    · rename_i hover
      have hge := decimalFrom_ge cs (n * 10 + digitVal c)
      simp only []
      omega
    · rename_i hfit
      exact ih _ hall.2 (by omega)

/-- The loop of `ParseUint` on a run of digits whose value fits: no error. -/
theorem ParseUintFrom_exact (s0 : Text) (b : Nat) (cs : Text) :
    ∀ n : Nat, cs.all isDigit = true →
      cs.foldl (fun n c => n * 10 + digitVal c) n < 2 ^ b →
      ParseUintFrom s0 b n cs = (cs.foldl (fun n c => n * 10 + digitVal c) n, none) := by
  induction cs with
  | nil => intro n _ _; simp [ParseUintFrom]
  | cons c cs ih =>
    intro n hall hfit
    simp only [List.all_cons, Bool.and_eq_true] at hall
    simp only [List.foldl_cons] at hfit
    have hge := decimalFrom_ge cs (n * 10 + digitVal c)
    simp only [ParseUintFrom, hall.1, List.foldl_cons]
    simp only [Bool.true_eq_false, if_false]
    rw [if_neg (by omega)]
    exact ih _ hall.2 hfit

/-- What `ParseUint` returns on a non-empty run of digits: its value, capped at
the largest `bitSize`-bit number. -/
theorem ParseUint_digits (g : Text) (b : Nat) (hne : g ≠ []) (hall : g.all isDigit = true) :
    (ParseUint g b).1 = min (decimal g) (2 ^ b - 1) := by
  unfold ParseUint
  rw [if_neg hne]
  exact ParseUintFrom_digits g b g 0 hall (Nat.zero_le _)

/-- The language of `timeRegexp`, with its capture groups. -/
theorem timeRegexp_match_iff (s g1 g2 g3 : Text) :
    timeRegexp_FindStringSubmatch s = some (g1, g2, g3) ↔
      ∃ s1 s2 d c1 c2, g2 = [s1, s2] ∧ g3 = [c1, c2] ∧ s = g1 ++ [':', s1, s2, d, c1, c2]
        ∧ g1 ≠ [] ∧ g1.all isDigit = true ∧ isDigit s1 = true ∧ isDigit s2 = true
        ∧ d ≠ '\n' ∧ isDigit c1 = true ∧ isDigit c2 = true := by
  constructor
  · intro h
    unfold timeRegexp_FindStringSubmatch at h
    simp only at h
    split at h
    · rename_i colon s1 s2 d c1 c2 hd
      split at h
      · rename_i hc
        simp only [Option.some.injEq, Prod.mk.injEq] at h
        obtain ⟨h1, h2, h3⟩ := h
        refine ⟨s1, s2, d, c1, c2, h2.symm, h3.symm, ?_, ?_, ?_, hc.2.2.1, hc.2.2.2.1,
          hc.2.2.2.2.1, hc.2.2.2.2.2.1, hc.2.2.2.2.2.2⟩
        · have hsplit := List.takeWhile_append_dropWhile isDigit s
          rw [hd, h1, hc.2.1] at hsplit
          exact hsplit.symm
        · rw [← h1]; exact hc.1
        · rw [← h1]; exact all_takeWhile _ _
      · exact absurd h (by simp)
    · exact absurd h (by simp)
  · rintro ⟨s1, s2, d, c1, c2, rfl, rfl, rfl, hne, hall, hs1, hs2, hd, hc1, hc2⟩
    have hk := takeWhile_append_stop g1 ':' [s1, s2, d, c1, c2] hall (by decide)
    unfold timeRegexp_FindStringSubmatch
    simp only
    rw [hk.1, hk.2]
    simp [hne, hs1, hs2, hd, hc1, hc2]

/-- No step of `min*60*100 + sec*100 + cs` wraps when the minutes fit in 32
bits and the other two values are below 100. -/
theorem ticksOf_exact (m s c : Nat) (hm : m ≤ 2 ^ 32 - 1) (hs : s ≤ 99) (hc : c ≤ 99) :
    ticksOf m s c = m * 60 * 100 + s * 100 + c := by
  unfold ticksOf addUint64 mulUint64 wrapUint64
  norm_num at hm ⊢
  omega

/-- The ticks computed from the groups of a matched time field. -/
theorem ticksOfMatch_of_match (f g1 g2 g3 : Text)
    (hm : timeRegexp_FindStringSubmatch f = some (g1, g2, g3)) :
    ticksOfMatch (g1, g2, g3)
        = min (decimal g1) (2 ^ 32 - 1) * 60 * 100 + decimal g2 * 100 + decimal g3
      ∧ decimal g2 ≤ 99 ∧ decimal g3 ≤ 99 := by
  obtain ⟨s1, s2, d, c1, c2, rfl, rfl, -, hne, hall, hs1, hs2, -, hc1, hc2⟩ :=
    (timeRegexp_match_iff f g1 g2 g3).1 hm
  have h2 := decimal_pair_le s1 s2 hs1 hs2
  have h3 := decimal_pair_le c1 c2 hc1 hc2
  have e1 := ParseUint_digits g1 32 hne hall
  have e2 := ParseUint_digits [s1, s2] 32 (by simp) (by simp [hs1, hs2])
  have e3 := ParseUint_digits [c1, c2] 32 (by simp) (by simp [hc1, hc2])
  have e2x : (ParseUint [s1, s2] 32).1 = decimal [s1, s2] := by
    rw [e2]; norm_num; omega
  have e3x : (ParseUint [c1, c2] 32).1 = decimal [c1, c2] := by
    rw [e3]; norm_num; omega
  refine ⟨?_, h2, h3⟩
  unfold ticksOfMatch
  simp only [e1, e2x, e3x]
  exact ticksOf_exact _ _ _ (min_le_right _ _) h2 h3

/-- The ticks computed from a matched time field stay far below `2^63`. -/
theorem ticksOfMatch_lt (f g1 g2 g3 : Text)
    (hm : timeRegexp_FindStringSubmatch f = some (g1, g2, g3)) :
    ticksOfMatch (g1, g2, g3) < 2 ^ 45 := by
  obtain ⟨e, h2, h3⟩ := ticksOfMatch_of_match f g1 g2 g3 hm
  have hmin : min (decimal g1) (2 ^ 32 - 1) ≤ 2 ^ 32 - 1 := min_le_right _ _
  rw [e]
  norm_num at hmin ⊢
  omega

/-- The conversion `int64(u)` is the identity below `2^63`. -/
theorem int64_of_lt (u : Nat) (h : u < 2 ^ 63) : int64 u = (u : Int) := by
  unfold int64 wrapInt64
  norm_num at h ⊢
  omega

/-- The conversion `int64(a - b)` of a wrapped `uint64` difference is the signed
difference when both operands are below `2^63`. -/
theorem int64_subUint64 (a b : Nat) (ha : a < 2 ^ 63) (hb : b < 2 ^ 63) :
    int64 (subUint64 a b) = (a : Int) - (b : Int) := by
  unfold int64 wrapInt64 subUint64 wrapUint64
  norm_num at ha hb ⊢
  omega

/-! ## Lemmas on the capture functions -/

theorem capturePs_eq (h : Host) (ps : processStorage) (pid : Int) (sout : Text)
    (lines : List Text)
    (hout : h.CombinedOutput ["So", "rss,vsz,time,utime", "-p", Itoa pid] = .ok sout)
    (hlines : h.ReadLines sout = .ok lines) :
    capturePs h ps pid = capturePsLines ps lines := by
  simp [capturePs, hout, hlines]

theorem captureVm_eq (h : Host) (ps : processStorage) (pid : Int) (data : Text)
    (lines : List Text)
    (hread : h.ReadFile (ps.path ++ "/" ++ Itoa pid ++ "/status") = .ok data)
    (hlines : h.ReadLines data = .ok lines) :
    captureVm h ps pid = captureVmLines ps lines := by
  simp [captureVm, hread, hlines]

theorem captureCpu_eq (h : Host) (ps : processStorage) (pid : Int) (data : Text)
    (lines : List Text)
    (hread : h.ReadFile (ps.path ++ "/" ++ Itoa pid ++ "/stat") = .ok data)
    (hlines : h.ReadLines data = .ok lines) :
    captureCpu h ps pid = captureCpuLines ps lines := by
  simp [captureCpu, hread, hlines]

/-- The loop of `captureVm` only appends to the record of saves. -/
theorem captureVmLines_saved (ls : List Text) :
    ∀ ps : processStorage,
      ∃ new, (captureVmLines ps ls).2 = { ps with saved := ps.saved ++ new } := by
  induction ls with
  | nil => intro ps; exact ⟨[], by simp [captureVmLines]⟩
  | cons ln rest ih =>
    intro ps
    simp only [captureVmLines]
    repeat' split
    all_goals first
      | (refine ⟨[], ?_⟩; simp; done)
      | exact ih _
      | (rename_i val _
         obtain ⟨new, hn⟩ := ih (ps.save "memory" "rss" (mulInt64 1024 val))
         refine ⟨⟨"memory", "rss", mulInt64 1024 val⟩ :: new, ?_⟩
         rw [hn]; simp [processStorage.save])
      | (rename_i val _
         obtain ⟨new, hn⟩ := ih (ps.save "memory" "vsz" (mulInt64 1024 val))
         refine ⟨⟨"memory", "vsz", mulInt64 1024 val⟩ :: new, ?_⟩
         rw [hn]; simp [processStorage.save])

/-- The loop of `captureVm` on a document cut in two: the second part is
processed only when the first part ends with `nil`. -/
theorem captureVmLines_append (pre rest : List Text) :
    ∀ ps : processStorage, captureVmLines ps (pre ++ rest) =
      match captureVmLines ps pre with
      | (.nil, ps1) => captureVmLines ps1 rest
      | r => r := by
  induction pre with
  | nil => intro ps; simp [captureVmLines]
  | cons ln pre ih =>
    intro ps
    simp only [List.cons_append, captureVmLines]
    repeat' split
    all_goals first
      | rfl
      | exact ih _
      | simp_all

/-- One `VmRSS:` line whose value parses: one save, then the next line. -/
theorem captureVmLines_rss (ps : processStorage) (ln tok : Text) (rest : List Text) (v : Int)
    (hV : ln[0]? = some 'V') (h0 : (Fields ln)[0]? = some "VmRSS:".toList)
    (h1 : (Fields ln)[1]? = some tok) (hp : ParseInt tok 64 = (v, none)) :
    captureVmLines ps (ln :: rest)
      = captureVmLines (ps.save "memory" "rss" (mulInt64 1024 v)) rest := by
  simp [captureVmLines, hV, h0, h1, hp]

/-- One `VmSize:` line whose value parses: one save, then the next line. -/
theorem captureVmLines_vsz (ps : processStorage) (ln tok : Text) (rest : List Text) (v : Int)
    (hV : ln[0]? = some 'V') (h0 : (Fields ln)[0]? = some "VmSize:".toList)
    (h1 : (Fields ln)[1]? = some tok) (hp : ParseInt tok 64 = (v, none)) :
    captureVmLines ps (ln :: rest)
      = captureVmLines (ps.save "memory" "vsz" (mulInt64 1024 v)) rest := by
  simp [captureVmLines, hV, h0, h1, hp]

/-- The fallback pass when all four fields are read. -/
theorem capturePsLines_all (ps : processStorage) (lines : List Text)
    (ln f0 f1 f2 f3 : Text) (v w : Int) (t u : Text × Text × Text)
    (hl : lines[1]? = some ln)
    (h0 : (Fields ln)[0]? = some f0) (p0 : ParseInt f0 64 = (v, none))
    (h1 : (Fields ln)[1]? = some f1) (p1 : ParseInt f1 64 = (w, none))
    (h2 : (Fields ln)[2]? = some f2) (m2 : timeRegexp_FindStringSubmatch f2 = some t)
    (h3 : (Fields ln)[3]? = some f3) (m3 : timeRegexp_FindStringSubmatch f3 = some u) :
    capturePsLines ps lines = (.nil, { ps with saved := ps.saved ++
      [⟨"memory", "rss", mulInt64 1024 v⟩, ⟨"memory", "vsz", mulInt64 1024 w⟩,
       ⟨"cpu", "user", int64 (ticksOfMatch u)⟩,
       ⟨"cpu", "system", int64 (subUint64 (ticksOfMatch t) (ticksOfMatch u))⟩] }) := by
  simp [capturePsLines, hl, h0, p0, h1, p1, h2, m2, h3, m3, processStorage.save]

/-- The fallback pass when a time field does not match (the third field, or
the fourth after the third matched): the two memory gauges are saved and `nil`
is returned. -/
theorem capturePsLines_soft (ps : processStorage) (lines : List Text)
    (ln f0 f1 f2 : Text) (v w : Int)
    (hl : lines[1]? = some ln)
    (h0 : (Fields ln)[0]? = some f0) (p0 : ParseInt f0 64 = (v, none))
    (h1 : (Fields ln)[1]? = some f1) (p1 : ParseInt f1 64 = (w, none))
    (h2 : (Fields ln)[2]? = some f2)
    (hfail : timeRegexp_FindStringSubmatch f2 = none
      ∨ ∃ f3, (Fields ln)[3]? = some f3 ∧ timeRegexp_FindStringSubmatch f3 = none) :
    capturePsLines ps lines = (.nil, { ps with saved := ps.saved ++
      [⟨"memory", "rss", mulInt64 1024 v⟩, ⟨"memory", "vsz", mulInt64 1024 w⟩] }) := by
  cases m2 : timeRegexp_FindStringSubmatch f2 with
  | none => simp [capturePsLines, hl, h0, p0, h1, p1, h2, m2, processStorage.save]
  | some t =>
    rcases hfail with hf | ⟨f3, h3, m3⟩
    · rw [m2] at hf; exact absurd hf (by simp)
    · simp [capturePsLines, hl, h0, p0, h1, p1, h2, m2, h3, m3, processStorage.save]

/-- Once the first field of the data line parses, the pass records the rss
gauge first, and no second time, whatever happens afterwards. -/
theorem capturePsLines_rss (ps : processStorage) (lines : List Text) (ln f0 : Text) (v : Int)
    (hl : lines[1]? = some ln)
    (h0 : (Fields ln)[0]? = some f0) (p0 : ParseInt f0 64 = (v, none)) :
    ∃ more, (capturePsLines ps lines).2.saved
        = ps.saved ++ ⟨"memory", "rss", mulInt64 1024 v⟩ :: more
      ∧ ∀ s ∈ more, s.name ≠ "rss" := by
  simp only [capturePsLines, hl, h0, p0]
  repeat' split
  all_goals
    simp only [processStorage.save, List.append_assoc, List.cons_append, List.nil_append]
    refine ⟨_, rfl, ?_⟩
    simp

/-- Once the first two fields of the data line parse, the pass records the rss
and vsz gauges first, and then cpu counters only, whatever happens
afterwards. -/
theorem capturePsLines_vsz (ps : processStorage) (lines : List Text) (ln f0 f1 : Text)
    (v w : Int) (hl : lines[1]? = some ln)
    (h0 : (Fields ln)[0]? = some f0) (p0 : ParseInt f0 64 = (v, none))
    (h1 : (Fields ln)[1]? = some f1) (p1 : ParseInt f1 64 = (w, none)) :
    ∃ more, (capturePsLines ps lines).2.saved
        = ps.saved ++ ⟨"memory", "rss", mulInt64 1024 v⟩
            :: ⟨"memory", "vsz", mulInt64 1024 w⟩ :: more
      ∧ ∀ s ∈ more, s.family = "cpu" := by
  simp only [capturePsLines, hl, h0, p0, h1, p1]
  repeat' split
  all_goals
    simp only [processStorage.save, List.append_assoc, List.cons_append, List.nil_append]
    refine ⟨_, rfl, ?_⟩
    simp

/-- C1 (amended): for every kibibyte reading `v` that parses as a signed 64-bit
decimal integer and whose product with 1024 fits in an `int64`
(`-2^53 ≤ v < 2^53`), the value saved equals `v * 1024`, in both source paths:
in `captureVm` for the value token of a `VmRSS:` line (saved as memory.rss) and
of a `VmSize:` line (memory.vsz) of the status document, and in `capturePs` for
the first (memory.rss) and the second (memory.vsz) field of the data line. In
`captureVm` the save is the one made for that line, after which the next line
is processed; in `capturePs` it is the only save of that gauge in the pass. -/
theorem memory_saved_in_bytes (tok : Text) (v : Int)
    (hparse : ParseInt tok 64 = (v, none)) (hlo : -2 ^ 53 ≤ v) (hhi : v < 2 ^ 53) :
    (∀ (h : Host) (ps ps1 : processStorage) (pid : Int) (data ln : Text)
        (pre post : List Text),
        h.ReadFile (ps.path ++ "/" ++ Itoa pid ++ "/status") = .ok data →
        h.ReadLines data = .ok (pre ++ ln :: post) →
        captureVmLines ps pre = (.nil, ps1) →
        ln[0]? = some 'V' → (Fields ln)[0]? = some "VmRSS:".toList →
        (Fields ln)[1]? = some tok →
        captureVm h ps pid = captureVmLines (ps1.save "memory" "rss" (v * 1024)) post
          ∧ ∃ more, (captureVm h ps pid).2.saved
              = ps1.saved ++ ⟨"memory", "rss", v * 1024⟩ :: more)
    ∧ (∀ (h : Host) (ps ps1 : processStorage) (pid : Int) (data ln : Text)
        (pre post : List Text),
        h.ReadFile (ps.path ++ "/" ++ Itoa pid ++ "/status") = .ok data →
        h.ReadLines data = .ok (pre ++ ln :: post) →
        captureVmLines ps pre = (.nil, ps1) →
        ln[0]? = some 'V' → (Fields ln)[0]? = some "VmSize:".toList →
        (Fields ln)[1]? = some tok →
        captureVm h ps pid = captureVmLines (ps1.save "memory" "vsz" (v * 1024)) post
          ∧ ∃ more, (captureVm h ps pid).2.saved
              = ps1.saved ++ ⟨"memory", "vsz", v * 1024⟩ :: more)
    ∧ (∀ (h : Host) (ps : processStorage) (pid : Int) (sout ln : Text) (lines : List Text),
        h.CombinedOutput ["So", "rss,vsz,time,utime", "-p", Itoa pid] = .ok sout →
        h.ReadLines sout = .ok lines →
        lines[1]? = some ln → (Fields ln)[0]? = some tok →
        ∃ more, (capturePs h ps pid).2.saved
            = ps.saved ++ ⟨"memory", "rss", v * 1024⟩ :: more
          ∧ ∀ s ∈ more, s.name ≠ "rss")
    ∧ (∀ (h : Host) (ps : processStorage) (pid : Int) (sout ln f0 : Text)
        (lines : List Text) (r : Int),
        h.CombinedOutput ["So", "rss,vsz,time,utime", "-p", Itoa pid] = .ok sout →
        h.ReadLines sout = .ok lines →
        lines[1]? = some ln → (Fields ln)[0]? = some f0 → ParseInt f0 64 = (r, none) →
        (Fields ln)[1]? = some tok →
        ∃ more, (capturePs h ps pid).2.saved
            = ps.saved ++ ⟨"memory", "rss", mulInt64 1024 r⟩
                :: ⟨"memory", "vsz", v * 1024⟩ :: more
          ∧ ∀ s ∈ more, s.family = "cpu") := by
  have hv := mulInt64_exact v hlo hhi
  refine ⟨?_, ?_, ?_, ?_⟩
  · intro h ps ps1 pid data ln pre post hread hlines hpre hV h0 h1
    have e : captureVm h ps pid = captureVmLines (ps1.save "memory" "rss" (v * 1024)) post := by
      rw [captureVm_eq h ps pid data _ hread hlines, captureVmLines_append, hpre]
      simp only []
      rw [captureVmLines_rss ps1 ln tok post v hV h0 h1 hparse, hv]
    refine ⟨e, ?_⟩
    obtain ⟨new, hn⟩ := captureVmLines_saved post (ps1.save "memory" "rss" (v * 1024))
    exact ⟨new, by rw [e, hn]; simp [processStorage.save]⟩
  · intro h ps ps1 pid data ln pre post hread hlines hpre hV h0 h1
    have e : captureVm h ps pid = captureVmLines (ps1.save "memory" "vsz" (v * 1024)) post := by
      rw [captureVm_eq h ps pid data _ hread hlines, captureVmLines_append, hpre]
      simp only []
      rw [captureVmLines_vsz ps1 ln tok post v hV h0 h1 hparse, hv]
    refine ⟨e, ?_⟩
    obtain ⟨new, hn⟩ := captureVmLines_saved post (ps1.save "memory" "vsz" (v * 1024))
    exact ⟨new, by rw [e, hn]; simp [processStorage.save]⟩
  · intro h ps pid sout ln lines hout hlines hl h0
    rw [capturePs_eq h ps pid sout lines hout hlines, ← hv]
    exact capturePsLines_rss ps lines ln tok v hl h0 hparse
  · intro h ps pid sout ln f0 lines r hout hlines hl h0 p0 h1
    rw [capturePs_eq h ps pid sout lines hout hlines, ← hv]
    exact capturePsLines_vsz ps lines ln f0 tok r v hl h0 p0 h1 hparse

/-- C1, the claim as written fails: the reading `9007199254740992` (`2^53`)
parses as a signed 64-bit decimal integer, and both paths save `-2^63` for it,
not `2^53 * 1024`. -/
theorem memory_saved_in_bytes_counterexample :
    ParseInt "9007199254740992".toList 64 = (9007199254740992, none)
    ∧ (captureVm (procHost "VmRSS:\t9007199254740992 kB\n".toList) ⟨[], "/proc"⟩ 1).2.saved
        = [⟨"memory", "rss", -9223372036854775808⟩]
    ∧ (capturePs (psHost "RSS VSZ TIME UTIME\n9007199254740992 1 0:00.00 0:00.00\n".toList)
          ⟨[], "/proc"⟩ 1).2.saved
        = [⟨"memory", "rss", -9223372036854775808⟩, ⟨"memory", "vsz", 1024⟩,
           ⟨"cpu", "user", 0⟩, ⟨"cpu", "system", 0⟩]
    ∧ (-9223372036854775808 : Int) ≠ 9007199254740992 * 1024 := by
  decide

/-- C1, witness: the readings of the example documents (324072 kB resident in
the status document, 1024 kB in the `ps` output). -/
theorem memory_saved_in_bytes_witness :
    ParseInt "324072".toList 64 = (324072, none)
    ∧ (-2 ^ 53 ≤ (324072 : Int) ∧ (324072 : Int) < 2 ^ 53)
    ∧ ∃ more, (captureVm exampleHost ⟨[], "proc"⟩ 14190).2.saved
        = [⟨"memory", "vsz", 1517207552⟩] ++ ⟨"memory", "rss", 324072 * 1024⟩ :: more :=
  ⟨by decide, by decide,
    ((memory_saved_in_bytes "324072".toList 324072 (by decide) (by decide) (by decide)).1
      exampleHost ⟨[], "proc"⟩ ⟨[⟨"memory", "vsz", 1517207552⟩], "proc"⟩ 14190 exampleStatus
      "VmRSS:\t  324072 kB".toList ["Name:\tmysqld".toList, "VmSize:\t 1481648 kB".toList]
      ["Threads:\t1".toList] (by rfl) (by rfl) (by decide) (by decide) (by decide)
      (by decide)).2⟩

/-- C2: for every stat document of one line with at least 17 fields whose
fields 13, 14, 15 and 16 parse as signed 64-bit decimal integers, `captureCpu`
returns `nil` and saves exactly those four integers, unconverted, as cpu.user,
cpu.system, cpu.total_user and cpu.total_system, in this order, and nothing
else. -/
theorem captureCpu_saves_raw_ticks (h : Host) (ps : processStorage) (pid : Int)
    (data ln f13 f14 f15 f16 : Text) (utime stime cutime cstime : Int)
    (hread : h.ReadFile (ps.path ++ "/" ++ Itoa pid ++ "/stat") = .ok data)
    (hlines : h.ReadLines data = .ok [ln])
    (h13 : (Fields ln)[13]? = some f13) (p13 : ParseInt f13 64 = (utime, none))
    (h14 : (Fields ln)[14]? = some f14) (p14 : ParseInt f14 64 = (stime, none))
    (h15 : (Fields ln)[15]? = some f15) (p15 : ParseInt f15 64 = (cutime, none))
    (h16 : (Fields ln)[16]? = some f16) (p16 : ParseInt f16 64 = (cstime, none)) :
    captureCpu h ps pid = (.nil, { ps with saved := ps.saved ++
      [⟨"cpu", "user", utime⟩, ⟨"cpu", "system", stime⟩,
       ⟨"cpu", "total_user", cutime⟩, ⟨"cpu", "total_system", cstime⟩] }) := by
  rw [captureCpu_eq h ps pid data _ hread hlines]
  simp [captureCpuLines, h13, p13, h14, p14, h15, p15, h16, p16, processStorage.save]

/-- C2, witness: the example stat document. -/
theorem captureCpu_saves_raw_ticks_witness :
    (Fields "14190 (mysqld) S 1 14190 14190 0 -1 4202752 100 0 0 0 1 6 3 2 20 0 1 0".toList)[16]?
        = some "2".toList
    ∧ captureCpu exampleHost ⟨[], "proc"⟩ 14190 = (.nil, ⟨[⟨"cpu", "user", 1⟩,
        ⟨"cpu", "system", 6⟩, ⟨"cpu", "total_user", 3⟩, ⟨"cpu", "total_system", 2⟩], "proc"⟩) :=
  ⟨by decide,
    captureCpu_saves_raw_ticks exampleHost ⟨[], "proc"⟩ 14190 exampleStat
      "14190 (mysqld) S 1 14190 14190 0 -1 4202752 100 0 0 0 1 6 3 2 20 0 1 0".toList
      "1".toList "6".toList "3".toList "2".toList 1 6 3 2
      (by rfl) (by rfl) (by decide) (by decide) (by decide) (by decide) (by decide)
      (by decide) (by decide) (by decide)⟩

/-- C3 (amended): every field made of one or more digits, a colon, exactly two
digits, a period and exactly two digits is accepted by the pattern `capturePs`
applies, with these three digit groups; and every field that is not of the form
one or more digits, a colon, two digits, one separator character, two digits is
a parse failure. -/
theorem timeRegexp_accepts (s : Text) :
    (∀ m s1 s2 c1 c2, s = m ++ [':', s1, s2, '.', c1, c2] → m ≠ [] → m.all isDigit = true →
        isDigit s1 = true → isDigit s2 = true → isDigit c1 = true → isDigit c2 = true →
        timeRegexp_FindStringSubmatch s = some (m, [s1, s2], [c1, c2]))
    ∧ ((¬ ∃ m s1 s2 d c1 c2, s = m ++ [':', s1, s2, d, c1, c2] ∧ m ≠ []
          ∧ m.all isDigit = true ∧ isDigit s1 = true ∧ isDigit s2 = true
          ∧ isDigit c1 = true ∧ isDigit c2 = true) →
        timeRegexp_FindStringSubmatch s = none) := by
  constructor
  · intro m s1 s2 c1 c2 hs hne hall hs1 hs2 hc1 hc2
    exact (timeRegexp_match_iff s m [s1, s2] [c1, c2]).2
      ⟨s1, s2, '.', c1, c2, rfl, rfl, hs, hne, hall, hs1, hs2, by decide, hc1, hc2⟩
  · intro hno
    cases hm : timeRegexp_FindStringSubmatch s with
    | none => rfl
    | some t =>
      obtain ⟨g1, g2, g3⟩ := t
      obtain ⟨s1, s2, d, c1, c2, -, -, hs, hne, hall, hs1, hs2, -, hc1, hc2⟩ :=
        (timeRegexp_match_iff s g1 g2 g3).1 hm
      exact absurd ⟨g1, s1, s2, d, c1, c2, hs, hne, hall, hs1, hs2, hc1, hc2⟩ hno

/-- C3, the claim as written fails: the field `1:2.3` has the form
digits, colon, digits, period, digits, and is a parse failure, so that
`capturePs` saves no cpu counter for a data line with such time fields. -/
theorem timeRegexp_accepts_counterexample :
    SpecTimeForm "1:2.3".toList
    ∧ timeRegexp_FindStringSubmatch "1:2.3".toList = none
    ∧ capturePs (psHost "RSS VSZ TIME UTIME\n1024 2048 1:2.3 1:2.3\n".toList) ⟨[], "/proc"⟩ 1
        = (.nil, ⟨[⟨"memory", "rss", 1048576⟩, ⟨"memory", "vsz", 2097152⟩], "/proc"⟩) :=
  ⟨⟨"1".toList, "2".toList, "3".toList, by decide⟩, by decide, by decide⟩

/-- C3, witness: the field `0:05.00` of the example `ps` output is accepted,
and the field `5.00` is a parse failure. -/
theorem timeRegexp_accepts_witness :
    timeRegexp_FindStringSubmatch "0:05.00".toList
        = some ("0".toList, "05".toList, "00".toList)
    ∧ timeRegexp_FindStringSubmatch "5.00".toList = none :=
  ⟨(timeRegexp_accepts "0:05.00".toList).1 "0".toList '0' '5' '0' '0' (by decide) (by decide)
      (by decide) (by decide) (by decide) (by decide) (by decide),
    (timeRegexp_accepts "5.00".toList).2 (by
      rintro ⟨m, s1, s2, d, c1, c2, hs, hne, hall, -⟩
      have hlen := congrArg List.length hs
      simp only [String.toList, List.length_append, List.length_cons, List.length_nil] at hlen
      have hpos : 0 < m.length := List.length_pos.2 hne
      have h4 : ("5.00".data).length = 4 := by decide
      omega)⟩

/-- The separator of the pattern is an unescaped `.`: a field with another
separator character, such as `1:23x45`, is accepted as well. -/
theorem timeRegexp_any_separator :
    timeRegexp_FindStringSubmatch "1:23x45".toList
      = some ("1".toList, "23".toList, "45".toList) := by
  decide

/-- C4 (amended): for every time field that `capturePs` accepts, with `m` the
decimal value of its minutes group capped at `2^32 - 1` (the 32-bit parse
saturates and its error is dropped) and `s`, `c` the decimal values of its
seconds and centiseconds groups, the tick count computed from it is
`m*60*100 + s*100 + c`; with the uncapped minutes the formula holds whenever
they are below `2^32`. When both time fields are accepted, the value saved as
cpu.user is that formula applied to the fourth field of the data line. -/
theorem ticks_of_accepted_field (f g1 g2 g3 : Text)
    (hm : timeRegexp_FindStringSubmatch f = some (g1, g2, g3)) :
    ticksOfMatch (g1, g2, g3)
        = min (decimal g1) (2 ^ 32 - 1) * 60 * 100 + decimal g2 * 100 + decimal g3
    ∧ (decimal g1 < 2 ^ 32 →
        ticksOfMatch (g1, g2, g3) = decimal g1 * 60 * 100 + decimal g2 * 100 + decimal g3)
    ∧ (∀ (h : Host) (ps : processStorage) (pid : Int) (sout ln f0 f1 f2 : Text)
        (lines : List Text) (v w : Int) (t : Text × Text × Text),
        h.CombinedOutput ["So", "rss,vsz,time,utime", "-p", Itoa pid] = .ok sout →
        h.ReadLines sout = .ok lines → lines[1]? = some ln →
        (Fields ln)[0]? = some f0 → ParseInt f0 64 = (v, none) →
        (Fields ln)[1]? = some f1 → ParseInt f1 64 = (w, none) →
        (Fields ln)[2]? = some f2 → timeRegexp_FindStringSubmatch f2 = some t →
        (Fields ln)[3]? = some f →
        ∃ sys, capturePs h ps pid = (.nil, { ps with saved := ps.saved ++
          [⟨"memory", "rss", mulInt64 1024 v⟩, ⟨"memory", "vsz", mulInt64 1024 w⟩,
           ⟨"cpu", "user", ((min (decimal g1) (2 ^ 32 - 1) * 60 * 100 + decimal g2 * 100
              + decimal g3 : Nat) : Int)⟩,
           ⟨"cpu", "system", sys⟩] })) := by
  obtain ⟨e, h2, h3⟩ := ticksOfMatch_of_match f g1 g2 g3 hm
  refine ⟨e, ?_, ?_⟩
  · intro hlt
    rw [e, min_eq_left (by omega)]
  · intro h ps pid sout ln f0 f1 f2 lines v w t hout hlines hl h0 p0 h1 p1 hf2 m2 hf3
    have hlt : ticksOfMatch (g1, g2, g3) < 2 ^ 63 :=
      lt_trans (ticksOfMatch_lt f g1 g2 g3 hm) (by norm_num)
    refine ⟨int64 (subUint64 (ticksOfMatch t) (ticksOfMatch (g1, g2, g3))), ?_⟩
    rw [capturePs_eq h ps pid sout lines hout hlines,
      capturePsLines_all ps lines ln f0 f1 f2 f v w t (g1, g2, g3) hl h0 p0 h1 p1 hf2 m2 hf3 hm,
      int64_of_lt _ hlt, e]

/-- C4, the claim as written fails: the field `4294967296:00.00` is accepted,
its minutes group has the decimal value `2^32`, and the tick count computed
from it, also the value saved as cpu.user, is `(2^32 - 1) * 6000`, not
`2^32 * 6000`. -/
theorem ticks_of_accepted_field_counterexample :
    timeRegexp_FindStringSubmatch "4294967296:00.00".toList
        = some ("4294967296".toList, "00".toList, "00".toList)
    ∧ decimal "4294967296".toList = 4294967296 ∧ decimal "00".toList = 0
    ∧ ticksOfMatch ("4294967296".toList, "00".toList, "00".toList) = 25769803770000
    ∧ 25769803770000 ≠ 4294967296 * 60 * 100 + 0 * 100 + 0
    ∧ capturePs (psHost "RSS VSZ TIME UTIME\n1 1 4294967296:00.00 4294967296:00.00\n".toList)
          ⟨[], "/proc"⟩ 1
        = (.nil, ⟨[⟨"memory", "rss", 1024⟩, ⟨"memory", "vsz", 1024⟩,
            ⟨"cpu", "user", 25769803770000⟩, ⟨"cpu", "system", 0⟩], "/proc"⟩) := by
  decide

/-- C4, witness: the user-time field `0:05.00` of the example `ps` output. -/
theorem ticks_of_accepted_field_witness :
    timeRegexp_FindStringSubmatch "0:05.00".toList
        = some ("0".toList, "05".toList, "00".toList)
    ∧ ticksOfMatch ("0".toList, "05".toList, "00".toList)
        = min (decimal "0".toList) (2 ^ 32 - 1) * 60 * 100 + decimal "05".toList * 100
          + decimal "00".toList :=
  ⟨by decide, (ticks_of_accepted_field "0:05.00".toList "0".toList "05".toList "00".toList
    (by decide)).1⟩

/-- C5: for every data line whose two memory fields parse and whose two time
fields are both accepted, the value saved as cpu.system is the signed
difference `totalTicks - userTicks` of the tick counts computed from the third
and the fourth field, also when `userTicks` exceeds `totalTicks`. -/
theorem system_ticks_signed_difference (h : Host) (ps : processStorage) (pid : Int)
    (sout ln f0 f1 f2 f3 : Text) (lines : List Text) (v w : Int) (t u : Text × Text × Text)
    (hout : h.CombinedOutput ["So", "rss,vsz,time,utime", "-p", Itoa pid] = .ok sout)
    (hlines : h.ReadLines sout = .ok lines) (hl : lines[1]? = some ln)
    (h0 : (Fields ln)[0]? = some f0) (p0 : ParseInt f0 64 = (v, none))
    (h1 : (Fields ln)[1]? = some f1) (p1 : ParseInt f1 64 = (w, none))
    (h2 : (Fields ln)[2]? = some f2) (m2 : timeRegexp_FindStringSubmatch f2 = some t)
    (h3 : (Fields ln)[3]? = some f3) (m3 : timeRegexp_FindStringSubmatch f3 = some u) :
    capturePs h ps pid = (.nil, { ps with saved := ps.saved ++
      [⟨"memory", "rss", mulInt64 1024 v⟩, ⟨"memory", "vsz", mulInt64 1024 w⟩,
       ⟨"cpu", "user", (ticksOfMatch u : Int)⟩,
       ⟨"cpu", "system", (ticksOfMatch t : Int) - (ticksOfMatch u : Int)⟩] }) := by
  have ht : ticksOfMatch t < 2 ^ 63 :=
    lt_trans (ticksOfMatch_lt f2 t.1 t.2.1 t.2.2 m2) (by norm_num)
  have hu : ticksOfMatch u < 2 ^ 63 :=
    lt_trans (ticksOfMatch_lt f3 u.1 u.2.1 u.2.2 m3) (by norm_num)
  rw [capturePs_eq h ps pid sout lines hout hlines,
    capturePsLines_all ps lines ln f0 f1 f2 f3 v w t u hl h0 p0 h1 p1 h2 m2 h3 m3,
    int64_of_lt _ hu, int64_subUint64 _ _ ht hu]

/-- C5, witness: a data line whose user time (600 ticks) exceeds its total time
(500 ticks); cpu.system is saved as -100. -/
theorem system_ticks_signed_difference_witness :
    timeRegexp_FindStringSubmatch "0:05.00".toList
        = some ("0".toList, "05".toList, "00".toList)
    ∧ timeRegexp_FindStringSubmatch "0:06.00".toList
        = some ("0".toList, "06".toList, "00".toList)
    ∧ capturePs (psHost "RSS VSZ TIME UTIME\n1024 2048 0:05.00 0:06.00\n".toList)
          ⟨[], "/proc"⟩ 1
        = (.nil, ⟨[⟨"memory", "rss", 1048576⟩, ⟨"memory", "vsz", 2097152⟩,
            ⟨"cpu", "user", 600⟩, ⟨"cpu", "system", -100⟩], "/proc"⟩) :=
  ⟨by decide, by decide,
    system_ticks_signed_difference
      (psHost "RSS VSZ TIME UTIME\n1024 2048 0:05.00 0:06.00\n".toList) ⟨[], "/proc"⟩ 1
      "RSS VSZ TIME UTIME\n1024 2048 0:05.00 0:06.00\n".toList
      "1024 2048 0:05.00 0:06.00".toList "1024".toList "2048".toList "0:05.00".toList
      "0:06.00".toList ["RSS VSZ TIME UTIME".toList, "1024 2048 0:05.00 0:06.00".toList]
      1024 2048 ("0".toList, "05".toList, "00".toList)
      ("0".toList, "06".toList, "00".toList)
      (by rfl) (by rfl) (by decide) (by decide) (by decide) (by decide) (by decide)
      (by decide) (by decide) (by decide) (by decide)⟩


/-- C6 (amended): for every `ps` output whose data line has both memory fields
parseable and a time field that fails to match the duration pattern (the third
field, or the fourth one after the third matched), `capturePs`, and `Collect`
on the fallback path, return `nil`; the saves of the pass are memory.rss and
memory.vsz and nothing else, so no cpu counter is saved; and each gauge is
saved with its reading times 1024 whenever that product fits in an `int64`
(reading `v` with `-2^53 ≤ v < 2^53`). -/
theorem time_parse_failure_is_soft (h : Host) (ps : processStorage) (pid : Int)
    (sout ln f0 f1 f2 : Text) (lines : List Text) (v w : Int)
    (hprobe : h.FileExists ps.path = .ok false)
    (hout : h.CombinedOutput ["So", "rss,vsz,time,utime", "-p", Itoa pid] = .ok sout)
    (hlines : h.ReadLines sout = .ok lines) (hl : lines[1]? = some ln)
    (h0 : (Fields ln)[0]? = some f0) (p0 : ParseInt f0 64 = (v, none))
    (h1 : (Fields ln)[1]? = some f1) (p1 : ParseInt f1 64 = (w, none))
    (h2 : (Fields ln)[2]? = some f2)
    (hfail : timeRegexp_FindStringSubmatch f2 = none
      ∨ ∃ f3, (Fields ln)[3]? = some f3 ∧ timeRegexp_FindStringSubmatch f3 = none) :
    ∃ rss vsz,
      capturePs h ps pid = (.nil, { ps with saved := ps.saved ++
          [⟨"memory", "rss", rss⟩, ⟨"memory", "vsz", vsz⟩] })
      ∧ Collect h ps pid = (.nil, { ps with saved := ps.saved ++
          [⟨"memory", "rss", rss⟩, ⟨"memory", "vsz", vsz⟩] })
      ∧ (-2 ^ 53 ≤ v → v < 2 ^ 53 → rss = v * 1024)
      ∧ (-2 ^ 53 ≤ w → w < 2 ^ 53 → vsz = w * 1024) := by
  have e : capturePs h ps pid = (.nil, { ps with saved := ps.saved ++
      [⟨"memory", "rss", mulInt64 1024 v⟩, ⟨"memory", "vsz", mulInt64 1024 w⟩] }) := by
    rw [capturePs_eq h ps pid sout lines hout hlines]
    exact capturePsLines_soft ps lines ln f0 f1 f2 v w hl h0 p0 h1 p1 h2 hfail
  refine ⟨mulInt64 1024 v, mulInt64 1024 w, e, ?_, mulInt64_exact v, mulInt64_exact w⟩
  simp [Collect, hprobe, e]

/-- C6, the claim as written fails: in the data line
`9007199254740992 1 0:00.00 5.00` both memory fields parse and the user-time
field does not match; `Collect` returns `nil` and no cpu counter is saved, but
memory.rss is saved as `-2^63`, which is not the reading `2^53` times 1024. -/
theorem time_parse_failure_is_soft_counterexample :
    ParseInt "9007199254740992".toList 64 = (9007199254740992, none)
    ∧ ParseInt "1".toList 64 = (1, none)
    ∧ timeRegexp_FindStringSubmatch "5.00".toList = none
    ∧ Collect (psHost "RSS VSZ TIME UTIME\n9007199254740992 1 0:00.00 5.00\n".toList)
          ⟨[], "/proc"⟩ 1
        = (.nil, ⟨[⟨"memory", "rss", -9223372036854775808⟩, ⟨"memory", "vsz", 1024⟩],
            "/proc"⟩)
    ∧ (-9223372036854775808 : Int) ≠ 9007199254740992 * 1024 := by
  decide

/-- C6, witness: a data line whose user-time field `5.00` does not match. -/
theorem time_parse_failure_is_soft_witness :
    timeRegexp_FindStringSubmatch "5.00".toList = none
    ∧ (-2 ^ 53 ≤ (1024 : Int) ∧ (1024 : Int) < 2 ^ 53
        ∧ -2 ^ 53 ≤ (2048 : Int) ∧ (2048 : Int) < 2 ^ 53)
    ∧ Collect (psHost "RSS VSZ TIME UTIME\n1024 2048 0:05.00 5.00\n".toList) ⟨[], "/proc"⟩ 1
        = (.nil, ⟨[⟨"memory", "rss", 1024 * 1024⟩, ⟨"memory", "vsz", 2048 * 1024⟩], "/proc"⟩) :=
  ⟨by decide, by decide, by
    obtain ⟨rss, vsz, -, hc, hr, hv⟩ := time_parse_failure_is_soft
      (psHost "RSS VSZ TIME UTIME\n1024 2048 0:05.00 5.00\n".toList) ⟨[], "/proc"⟩ 1
      "RSS VSZ TIME UTIME\n1024 2048 0:05.00 5.00\n".toList
      "1024 2048 0:05.00 5.00".toList "1024".toList "2048".toList "0:05.00".toList
      ["RSS VSZ TIME UTIME".toList, "1024 2048 0:05.00 5.00".toList] 1024 2048
      (by rfl) (by rfl) (by rfl) (by decide) (by decide) (by decide) (by decide) (by decide)
      (by decide) (Or.inr ⟨"5.00".toList, by decide, by decide⟩)
    rw [hc, hr (by decide) (by decide), hv (by decide) (by decide)]
    rfl⟩

/-- C7 (amended): in the fallback path a parse failure of one duration field
does not abort the collection of the two memory fields of the same data line:
for every data line whose memory fields parse and in which exactly one of the
two time fields fails to match, memory.rss and memory.vsz are saved and `nil`
is returned, and no cpu counter is saved. -/
theorem one_time_field_fails (h : Host) (ps : processStorage) (pid : Int)
    (sout ln f0 f1 f2 f3 : Text) (lines : List Text) (v w : Int)
    (hout : h.CombinedOutput ["So", "rss,vsz,time,utime", "-p", Itoa pid] = .ok sout)
    (hlines : h.ReadLines sout = .ok lines) (hl : lines[1]? = some ln)
    (h0 : (Fields ln)[0]? = some f0) (p0 : ParseInt f0 64 = (v, none))
    (h1 : (Fields ln)[1]? = some f1) (p1 : ParseInt f1 64 = (w, none))
    (h2 : (Fields ln)[2]? = some f2) (h3 : (Fields ln)[3]? = some f3)
    (hone : (timeRegexp_FindStringSubmatch f2 = none
          ∧ timeRegexp_FindStringSubmatch f3 ≠ none)
      ∨ (timeRegexp_FindStringSubmatch f2 ≠ none
          ∧ timeRegexp_FindStringSubmatch f3 = none)) :
    ∃ new, capturePs h ps pid = (.nil, { ps with saved := ps.saved ++ new })
      ∧ new = [⟨"memory", "rss", mulInt64 1024 v⟩, ⟨"memory", "vsz", mulInt64 1024 w⟩]
      ∧ ∀ s ∈ new, s.family ≠ "cpu" := by
  refine ⟨_, ?_, rfl, ?_⟩
  · rw [capturePs_eq h ps pid sout lines hout hlines]
    refine capturePsLines_soft ps lines ln f0 f1 f2 v w hl h0 p0 h1 p1 h2 ?_
    rcases hone with ⟨hf, -⟩ | ⟨-, hf⟩
    · exact Or.inl hf
    · exact Or.inr ⟨f3, h3, hf⟩
  · intro s hs
    simp only [List.mem_cons, List.mem_singleton, List.not_mem_nil, or_false] at hs
    rcases hs with rfl | rfl <;> exact (by decide : "memory" ≠ "cpu")

/-- C7, the claim as written fails: in the data line `1024 2048 - 0:05.00` the
total-time field does not match and the user-time field does; `capturePs`
returns at the first failure and cpu.user is not saved. -/
theorem one_time_field_fails_counterexample :
    timeRegexp_FindStringSubmatch "-".toList = none
    ∧ timeRegexp_FindStringSubmatch "0:05.00".toList
        = some ("0".toList, "05".toList, "00".toList)
    ∧ capturePs (psHost "RSS VSZ TIME UTIME\n1024 2048 - 0:05.00\n".toList) ⟨[], "/proc"⟩ 1
        = (.nil, ⟨[⟨"memory", "rss", 1048576⟩, ⟨"memory", "vsz", 2097152⟩], "/proc"⟩)
    ∧ ∀ s ∈ (capturePs (psHost "RSS VSZ TIME UTIME\n1024 2048 - 0:05.00\n".toList)
          ⟨[], "/proc"⟩ 1).2.saved, ¬ (s.family = "cpu" ∧ s.name = "user") := by
  decide

/-- C7, witness: the data line `1024 2048 0:15.00 -`, whose user-time field
does not match. -/
theorem one_time_field_fails_witness :
    (timeRegexp_FindStringSubmatch "0:15.00".toList ≠ none
      ∧ timeRegexp_FindStringSubmatch "-".toList = none)
    ∧ ∃ new, capturePs (psHost "RSS VSZ TIME UTIME\n1024 2048 0:15.00 -\n".toList)
          ⟨[], "/proc"⟩ 1 = (.nil, ⟨[] ++ new, "/proc"⟩)
        ∧ new = [⟨"memory", "rss", mulInt64 1024 1024⟩, ⟨"memory", "vsz", mulInt64 1024 2048⟩]
        ∧ ∀ s ∈ new, s.family ≠ "cpu" :=
  ⟨by decide,
    one_time_field_fails (psHost "RSS VSZ TIME UTIME\n1024 2048 0:15.00 -\n".toList)
      ⟨[], "/proc"⟩ 1 "RSS VSZ TIME UTIME\n1024 2048 0:15.00 -\n".toList
      "1024 2048 0:15.00 -".toList "1024".toList "2048".toList "0:15.00".toList "-".toList
      ["RSS VSZ TIME UTIME".toList, "1024 2048 0:15.00 -".toList] 1024 2048
      (by rfl) (by rfl) (by decide) (by decide) (by decide) (by decide) (by decide)
      (by decide) (by decide) (Or.inr (by decide))⟩

/-- C8: `Collect` selects its source by the probe and hands errors on
unchanged. A failing probe gives its error and an untouched store. With the
root absent the result is that of `capturePs`, and the files play no part.
With the root present `captureVm` runs first; when it does not end with `nil`
its result is the result, otherwise the result is that of `captureCpu` on the
store `captureVm` left; the `ps` command plays no part. -/
theorem Collect_dispatch (h : Host) (ps : processStorage) (pid : Int) :
    (∀ e, h.FileExists ps.path = .error e → Collect h ps pid = (.err e, ps))
    ∧ (h.FileExists ps.path = .ok false →
        Collect h ps pid = capturePs h ps pid
        ∧ ∀ readFile, Collect { h with ReadFile := readFile } ps pid = Collect h ps pid)
    ∧ (h.FileExists ps.path = .ok true →
        (∀ e ps1, captureVm h ps pid = (.err e, ps1) → Collect h ps pid = (.err e, ps1))
        ∧ (∀ r ps1, captureVm h ps pid = (r, ps1) → r ≠ .nil → Collect h ps pid = (r, ps1))
        ∧ (∀ ps1, captureVm h ps pid = (.nil, ps1) → Collect h ps pid = captureCpu h ps1 pid)
        ∧ ∀ combinedOutput,
            Collect { h with CombinedOutput := combinedOutput } ps pid = Collect h ps pid) := by
  refine ⟨?_, ?_, ?_⟩
  · intro e he
    simp [Collect, he]
  · intro hf
    refine ⟨?_, ?_⟩
    · simp only [Collect, hf]
      split <;> simp_all
    · intro readFile
      simp only [Collect, hf, capturePs]
  · intro ht
    refine ⟨?_, ?_, ?_, ?_⟩
    · intro e ps1 hv
      simp [Collect, ht, hv]
    · intro r ps1 hv hr
      simp only [Collect, ht, hv]
      cases r <;> simp_all
    · intro ps1 hv
      simp only [Collect, ht, hv]
      split <;> simp_all
    · intro combinedOutput
      simp only [Collect, ht, captureVm, captureCpu]

/-- C8, witness: the example host, with the root absent (`nonexistent`) and
with the root present (`proc`). -/
theorem Collect_dispatch_witness :
    Collect exampleHost ⟨[], "nonexistent"⟩ 9051 = capturePs exampleHost ⟨[], "nonexistent"⟩ 9051
    ∧ Collect exampleHost ⟨[], "proc"⟩ 14190
        = captureCpu exampleHost
            ⟨[⟨"memory", "vsz", 1517207552⟩, ⟨"memory", "rss", 331849728⟩], "proc"⟩ 14190 :=
  ⟨((Collect_dispatch exampleHost ⟨[], "nonexistent"⟩ 9051).2.1 (by rfl)).1,
    ((Collect_dispatch exampleHost ⟨[], "proc"⟩ 14190).2.2 (by rfl)).2.2.1 _ (by decide)⟩

/-- C9: `Collect` on a pid the host does not know fails and saves nothing.
With the root present and the status file of the pid unreadable, the read
error is returned and the store is untouched; with the root absent and the
`ps` command failing for the pid, its error is returned and the store is
untouched. -/
theorem Collect_nonexistent_pid (h : Host) (ps : processStorage) (pid : Int) (e : GoError) :
    (h.FileExists ps.path = .ok true →
        h.ReadFile (ps.path ++ "/" ++ Itoa pid ++ "/status") = .error e →
        Collect h ps pid = (.err e, ps))
    ∧ (h.FileExists ps.path = .ok false →
        h.CombinedOutput ["So", "rss,vsz,time,utime", "-p", Itoa pid] = .error e →
        Collect h ps pid = (.err e, ps)) := by
  constructor
  · intro ht hr
    simp [Collect, ht, captureVm, hr]
  · intro hf hc
    simp [Collect, hf, capturePs, hc]

/-- C9, witness: process 100 is unknown to the example host, with the root
`proc` (present) and with the root `nonexistent` (absent). -/
theorem Collect_nonexistent_pid_witness :
    Collect exampleHost ⟨[], "proc"⟩ 100
        = (.err (.host "no such file or directory"), ⟨[], "proc"⟩)
    ∧ Collect exampleHost ⟨[], "nonexistent"⟩ 100
        = (.err (.host "exit status 1"), ⟨[], "nonexistent"⟩) :=
  ⟨(Collect_nonexistent_pid exampleHost ⟨[], "proc"⟩ 100 (.host "no such file or directory")).1
      (by rfl) (by rfl),
    (Collect_nonexistent_pid exampleHost ⟨[], "nonexistent"⟩ 100 (.host "exit status 1")).2
      (by rfl) (by rfl)⟩

/-! ## Hard failures -/

theorem getElem?_of_lt {α : Type} (l : List α) (i : Nat) (h : i < l.length) :
    ∃ x, l[i]? = some x :=
  ⟨l[i], List.getElem?_eq_getElem h⟩

/-- A field being read is never lost. -/
theorem FieldsFrom_ne_nil (s : Text) :
    ∀ cur : List Char, cur ≠ [] → FieldsFrom cur s ≠ [] := by
  induction s with
  | nil => intro cur h; simp [FieldsFrom, h]
  | cons c cs ih =>
    intro cur h
    simp only [FieldsFrom]
    split
    · simp [h]
    · exact ih (c :: cur) (by simp)

/-- A line that starts with `V` has a first field. -/
theorem Fields_head_of_V (ln : Text) (hV : ln[0]? = some 'V') :
    ∃ label, (Fields ln)[0]? = some label := by
  cases ln with
  | nil => simp at hV
  | cons c cs =>
    simp only [List.getElem?_cons_zero, Option.some.injEq] at hV
    subst hV
    have hne : Fields ('V' :: cs) ≠ [] := by
      have hs : IsSpace 'V' = false := by decide
      simp only [Fields, FieldsFrom, hs]
      exact FieldsFrom_ne_nil cs ['V'] (by simp)
    cases hf : Fields ('V' :: cs) with
    | nil => exact absurd hf hne
    | cons a l => exact ⟨a, by simp⟩

/-- The loop of `captureCpu` on a document cut in two. -/
theorem captureCpuLines_append (pre rest : List Text) :
    ∀ ps : processStorage, captureCpuLines ps (pre ++ rest) =
      match captureCpuLines ps pre with
      | (.nil, ps1) => captureCpuLines ps1 rest
      | r => r := by
  induction pre with
  | nil => intro ps; simp [captureCpuLines]
  | cons ln pre ih =>
    intro ps
    simp only [List.cons_append, captureCpuLines]
    repeat' split
    all_goals first
      | rfl
      | exact ih _
      | simp_all

/-- A stat line with 17 fields one of whose fields 13 to 16 does not parse ends
the loop with an error, and nothing is saved for it. -/
theorem captureCpuLines_bad (ps : processStorage) (ln : Text) (rest : List Text)
    (hlen : 17 ≤ (Fields ln).length)
    (hbad : ∃ k f, 13 ≤ k ∧ k ≤ 16 ∧ (Fields ln)[k]? = some f ∧ (ParseInt f 64).2 ≠ none) :
    ∃ e, captureCpuLines ps (ln :: rest) = (.err e, ps) := by
  obtain ⟨f13, h13⟩ := getElem?_of_lt (Fields ln) 13 (by omega)
  obtain ⟨f14, h14⟩ := getElem?_of_lt (Fields ln) 14 (by omega)
  obtain ⟨f15, h15⟩ := getElem?_of_lt (Fields ln) 15 (by omega)
  obtain ⟨f16, h16⟩ := getElem?_of_lt (Fields ln) 16 (by omega)
  rcases p13 : ParseInt f13 64 with ⟨x13, _ | e13⟩
  swap
  · exact ⟨e13, by simp [captureCpuLines, h13, p13]⟩
  rcases p14 : ParseInt f14 64 with ⟨x14, _ | e14⟩
  swap
  · exact ⟨e14, by simp [captureCpuLines, h13, p13, h14, p14]⟩
  rcases p15 : ParseInt f15 64 with ⟨x15, _ | e15⟩
  swap
  · exact ⟨e15, by simp [captureCpuLines, h13, p13, h14, p14, h15, p15]⟩
  rcases p16 : ParseInt f16 64 with ⟨x16, _ | e16⟩
  swap
  · exact ⟨e16, by simp [captureCpuLines, h13, p13, h14, p14, h15, p15, h16, p16]⟩
  exfalso
  obtain ⟨k, f, hk1, hk2, hf, hp⟩ := hbad
  interval_cases k
  · rw [h13] at hf; cases hf; simp [p13] at hp
  · rw [h14] at hf; cases hf; simp [p14] at hp
  · rw [h15] at hf; cases hf; simp [p15] at hp
  · rw [h16] at hf; cases hf; simp [p16] at hp

/-- On stat lines of at least 17 fields the loop of `captureCpu` returns an
error only for a field 13 to 16 that does not parse, and it never panics. -/
theorem captureCpuLines_err (lines : List Text) :
    ∀ ps : processStorage, (∀ ln ∈ lines, 17 ≤ (Fields ln).length) →
      (captureCpuLines ps lines).1 ≠ .panic
      ∧ ∀ e, (captureCpuLines ps lines).1 = .err e →
        ∃ ln ∈ lines, ∃ k f, 13 ≤ k ∧ k ≤ 16 ∧ (Fields ln)[k]? = some f
          ∧ (ParseInt f 64).2 = some e := by
  induction lines with
  | nil => intro ps _; simp [captureCpuLines]
  | cons ln rest ih =>
    intro ps hall
    have hlen := hall ln (by simp)
    obtain ⟨f13, h13⟩ := getElem?_of_lt (Fields ln) 13 (by omega)
    obtain ⟨f14, h14⟩ := getElem?_of_lt (Fields ln) 14 (by omega)
    obtain ⟨f15, h15⟩ := getElem?_of_lt (Fields ln) 15 (by omega)
    obtain ⟨f16, h16⟩ := getElem?_of_lt (Fields ln) 16 (by omega)
    rcases p13 : ParseInt f13 64 with ⟨x13, _ | e13⟩
    swap
    · refine ⟨by simp [captureCpuLines, h13, p13], fun e he => ?_⟩
      simp [captureCpuLines, h13, p13] at he
      exact ⟨ln, by simp, 13, f13, by omega, by omega, h13, by simp [p13, he]⟩
    rcases p14 : ParseInt f14 64 with ⟨x14, _ | e14⟩
    swap
    · refine ⟨by simp [captureCpuLines, h13, p13, h14, p14], fun e he => ?_⟩
      simp [captureCpuLines, h13, p13, h14, p14] at he
      exact ⟨ln, by simp, 14, f14, by omega, by omega, h14, by simp [p14, he]⟩
    rcases p15 : ParseInt f15 64 with ⟨x15, _ | e15⟩
    swap
    · refine ⟨by simp [captureCpuLines, h13, p13, h14, p14, h15, p15], fun e he => ?_⟩
      simp [captureCpuLines, h13, p13, h14, p14, h15, p15] at he
      exact ⟨ln, by simp, 15, f15, by omega, by omega, h15, by simp [p15, he]⟩
    rcases p16 : ParseInt f16 64 with ⟨x16, _ | e16⟩
    swap
    · refine ⟨by simp [captureCpuLines, h13, p13, h14, p14, h15, p15, h16, p16],
        fun e he => ?_⟩
      simp [captureCpuLines, h13, p13, h14, p14, h15, p15, h16, p16] at he
      exact ⟨ln, by simp, 16, f16, by omega, by omega, h16, by simp [p16, he]⟩
    have hstep : captureCpuLines ps (ln :: rest)
        = captureCpuLines ((((ps.save "cpu" "user" x13).save "cpu" "system" x14).save
            "cpu" "total_user" x15).save "cpu" "total_system" x16) rest := by
      simp [captureCpuLines, h13, p13, h14, p14, h15, p15, h16, p16]
    rw [hstep]
    obtain ⟨hnp, herr⟩ := ih _ (fun l hl => hall l (by simp [hl]))
    refine ⟨hnp, fun e he => ?_⟩
    obtain ⟨l, hl, rest2⟩ := herr e he
    exact ⟨l, by simp [hl], rest2⟩

/-- A line `captureVm` reads a value from, with a value token that does not
parse, ends the loop with the error of the parse; nothing is saved for it. -/
theorem captureVmLines_bad (ps : processStorage) (ln tok : Text) (rest : List Text)
    (x : Int) (e : GoError) (hvm : IsVmLine ln) (h1 : (Fields ln)[1]? = some tok)
    (hp : ParseInt tok 64 = (x, some e)) :
    captureVmLines ps (ln :: rest) = (.err e, ps) := by
  obtain ⟨hV, h0 | h0⟩ := hvm
  · simp [captureVmLines, hV, h0, h1, hp]
  · simp [captureVmLines, hV, h0, h1, hp]

/-- On a status document without empty lines, in which every line `captureVm`
reads a value from has a value token, the loop returns an error only for a
value token that does not parse, and it never panics. -/
theorem captureVmLines_err (lines : List Text) :
    ∀ ps : processStorage,
      (∀ ln ∈ lines, ln ≠ [] ∧ (IsVmLine ln → (Fields ln)[1]? ≠ none)) →
      (captureVmLines ps lines).1 ≠ .panic
      ∧ ∀ e, (captureVmLines ps lines).1 = .err e →
        ∃ ln ∈ lines, ∃ tok, IsVmLine ln ∧ (Fields ln)[1]? = some tok
          ∧ (ParseInt tok 64).2 = some e := by
  induction lines with
  | nil => intro ps _; simp [captureVmLines]
  | cons ln rest ih =>
    intro ps hall
    obtain ⟨hne, hwf⟩ := hall ln (by simp)
    have lift : ∀ ps1 : processStorage,
        captureVmLines ps (ln :: rest) = captureVmLines ps1 rest →
        (captureVmLines ps (ln :: rest)).1 ≠ .panic
        ∧ ∀ e, (captureVmLines ps (ln :: rest)).1 = .err e →
          ∃ l ∈ ln :: rest, ∃ tok, IsVmLine l ∧ (Fields l)[1]? = some tok
            ∧ (ParseInt tok 64).2 = some e := by
      intro ps1 hstep
      rw [hstep]
      obtain ⟨hnp, herr⟩ := ih ps1 (fun l hl => hall l (by simp [hl]))
      refine ⟨hnp, fun e he => ?_⟩
      obtain ⟨l, hl, rest2⟩ := herr e he
      exact ⟨l, by simp [hl], rest2⟩
    obtain ⟨c, hc⟩ : ∃ c, ln[0]? = some c := by
      cases ln with
      | nil => exact absurd rfl hne
      | cons c cs => exact ⟨c, by simp⟩
    by_cases hV : c = 'V'
    · subst hV
      obtain ⟨label, hlab⟩ := Fields_head_of_V ln hc
      by_cases hr : label = "VmRSS:".toList
      · subst hr
        have hvm : IsVmLine ln := ⟨hc, Or.inl hlab⟩
        obtain ⟨tok, htok⟩ := Option.ne_none_iff_exists'.1 (hwf hvm)
        rcases hp : ParseInt tok 64 with ⟨x, _ | e1⟩
        · exact lift _ (captureVmLines_rss ps ln tok rest x hc hlab htok hp)
        · rw [captureVmLines_bad ps ln tok rest x e1 hvm htok hp]
          refine ⟨by simp, fun e he => ?_⟩
          simp only [Result.err.injEq] at he
          exact ⟨ln, by simp, tok, hvm, htok, by simp [hp, he]⟩
      · by_cases hs : label = "VmSize:".toList
        · subst hs
          have hvm : IsVmLine ln := ⟨hc, Or.inr hlab⟩
          obtain ⟨tok, htok⟩ := Option.ne_none_iff_exists'.1 (hwf hvm)
          rcases hp : ParseInt tok 64 with ⟨x, _ | e1⟩
          · exact lift _ (captureVmLines_vsz ps ln tok rest x hc hlab htok hp)
          · rw [captureVmLines_bad ps ln tok rest x e1 hvm htok hp]
            refine ⟨by simp, fun e he => ?_⟩
            simp only [Result.err.injEq] at he
            exact ⟨ln, by simp, tok, hvm, htok, by simp [hp, he]⟩
        · refine lift ps ?_
          simp only [captureVmLines, hc, hlab, if_true]
          rw [if_neg hr, if_neg hs]
    · refine lift ps ?_
      simp [captureVmLines, hc, hV]

/-- On a data line of at least four fields the fallback pass returns an error
only for a memory field that does not parse, and it never panics. -/
theorem capturePsLines_err (ps : processStorage) (lines : List Text) (ln : Text)
    (hl : lines[1]? = some ln) (hlen : 4 ≤ (Fields ln).length) :
    (capturePsLines ps lines).1 ≠ .panic
    ∧ ∀ e, (capturePsLines ps lines).1 = .err e →
      ∃ k f, k ≤ 1 ∧ (Fields ln)[k]? = some f ∧ (ParseInt f 64).2 = some e := by
  obtain ⟨f0, h0⟩ := getElem?_of_lt (Fields ln) 0 (by omega)
  obtain ⟨f1, h1⟩ := getElem?_of_lt (Fields ln) 1 (by omega)
  obtain ⟨f2, h2⟩ := getElem?_of_lt (Fields ln) 2 (by omega)
  obtain ⟨f3, h3⟩ := getElem?_of_lt (Fields ln) 3 (by omega)
  rcases p0 : ParseInt f0 64 with ⟨v, _ | e0⟩
  swap
  · refine ⟨by simp [capturePsLines, hl, h0, p0], fun e he => ?_⟩
    simp [capturePsLines, hl, h0, p0] at he
    exact ⟨0, f0, by omega, h0, by simp [p0, he]⟩
  rcases p1 : ParseInt f1 64 with ⟨w, _ | e1⟩
  swap
  · refine ⟨by simp [capturePsLines, hl, h0, p0, h1, p1], fun e he => ?_⟩
    simp [capturePsLines, hl, h0, p0, h1, p1] at he
    exact ⟨1, f1, by omega, h1, by simp [p1, he]⟩
  cases m2 : timeRegexp_FindStringSubmatch f2 with
  | none =>
    rw [capturePsLines_soft ps lines ln f0 f1 f2 v w hl h0 p0 h1 p1 h2 (Or.inl m2)]
    simp
  | some t =>
    cases m3 : timeRegexp_FindStringSubmatch f3 with
    | none =>
      rw [capturePsLines_soft ps lines ln f0 f1 f2 v w hl h0 p0 h1 p1 h2
        (Or.inr ⟨f3, h3, m3⟩)]
      simp
    | some u =>
      rw [capturePsLines_all ps lines ln f0 f1 f2 f3 v w t u hl h0 p0 h1 p1 h2 m2 h3 m3]
      simp

/-- C10: a numeric parse failure on a required field is a hard error. (a) In
`capturePs`, a first (rss) field that does not parse gives the error of the
parse with nothing saved, a second (vsz) field that does not parse gives the
error of the parse with only memory.rss saved: no cpu counter is saved. (b) In
`captureVm`, a `VmRSS:` or `VmSize:` line whose value token does not parse
gives the error of the parse, with the store as the lines before left it: no
later line is processed. (c) In `captureCpu`, a stat line with at least 17
fields one of whose fields 13 to 16 does not parse gives an error, and nothing
is saved for the line. Conversely, (d) on a data line with at least four fields
`capturePs`, (e) on a status document without empty lines in which every
`VmRSS:` or `VmSize:` line has a value token `captureVm`, and (f) on stat lines
with at least 17 fields `captureCpu` return an error only when such a field
does not parse, and it is the error of that parse. -/
theorem parse_failure_is_hard (h : Host) (ps : processStorage) (pid : Int) :
    (∀ (sout ln f0 f1 : Text) (lines : List Text),
        h.CombinedOutput ["So", "rss,vsz,time,utime", "-p", Itoa pid] = .ok sout →
        h.ReadLines sout = .ok lines → lines[1]? = some ln →
        (Fields ln)[0]? = some f0 → (Fields ln)[1]? = some f1 →
        (∀ x e, ParseInt f0 64 = (x, some e) → capturePs h ps pid = (.err e, ps))
        ∧ (∀ v x e, ParseInt f0 64 = (v, none) → ParseInt f1 64 = (x, some e) →
            capturePs h ps pid = (.err e, ps.save "memory" "rss" (mulInt64 1024 v))))
    ∧ (∀ (data ln tok : Text) (pre post : List Text) (ps1 : processStorage) (x : Int)
        (e : GoError),
        h.ReadFile (ps.path ++ "/" ++ Itoa pid ++ "/status") = .ok data →
        h.ReadLines data = .ok (pre ++ ln :: post) →
        captureVmLines ps pre = (.nil, ps1) →
        IsVmLine ln → (Fields ln)[1]? = some tok → ParseInt tok 64 = (x, some e) →
        captureVm h ps pid = (.err e, ps1))
    ∧ (∀ (data ln : Text) (pre post : List Text) (ps1 : processStorage),
        h.ReadFile (ps.path ++ "/" ++ Itoa pid ++ "/stat") = .ok data →
        h.ReadLines data = .ok (pre ++ ln :: post) →
        captureCpuLines ps pre = (.nil, ps1) →
        17 ≤ (Fields ln).length →
        (∃ k f, 13 ≤ k ∧ k ≤ 16 ∧ (Fields ln)[k]? = some f ∧ (ParseInt f 64).2 ≠ none) →
        ∃ e, captureCpu h ps pid = (.err e, ps1))
    ∧ (∀ (sout ln : Text) (lines : List Text) (e : GoError),
        h.CombinedOutput ["So", "rss,vsz,time,utime", "-p", Itoa pid] = .ok sout →
        h.ReadLines sout = .ok lines → lines[1]? = some ln → 4 ≤ (Fields ln).length →
        (capturePs h ps pid).1 = .err e →
        ∃ k f, k ≤ 1 ∧ (Fields ln)[k]? = some f ∧ (ParseInt f 64).2 = some e)
    ∧ (∀ (data : Text) (lines : List Text) (e : GoError),
        h.ReadFile (ps.path ++ "/" ++ Itoa pid ++ "/status") = .ok data →
        h.ReadLines data = .ok lines →
        (∀ ln ∈ lines, ln ≠ [] ∧ (IsVmLine ln → (Fields ln)[1]? ≠ none)) →
        (captureVm h ps pid).1 = .err e →
        ∃ ln ∈ lines, ∃ tok, IsVmLine ln ∧ (Fields ln)[1]? = some tok
          ∧ (ParseInt tok 64).2 = some e)
    ∧ (∀ (data : Text) (lines : List Text) (e : GoError),
        h.ReadFile (ps.path ++ "/" ++ Itoa pid ++ "/stat") = .ok data →
        h.ReadLines data = .ok lines →
        (∀ ln ∈ lines, 17 ≤ (Fields ln).length) →
        (captureCpu h ps pid).1 = .err e →
        ∃ ln ∈ lines, ∃ k f, 13 ≤ k ∧ k ≤ 16 ∧ (Fields ln)[k]? = some f
          ∧ (ParseInt f 64).2 = some e) := by
  refine ⟨?_, ?_, ?_, ?_, ?_, ?_⟩
  · intro sout ln f0 f1 lines hout hlines hl h0 h1
    rw [capturePs_eq h ps pid sout lines hout hlines]
    constructor
    · intro x e p0
      simp [capturePsLines, hl, h0, p0]
    · intro v x e p0 p1
      simp [capturePsLines, hl, h0, p0, h1, p1]
  · intro data ln tok pre post ps1 x e hread hlines hpre hvm h1 hp
    rw [captureVm_eq h ps pid data _ hread hlines, captureVmLines_append, hpre]
    exact captureVmLines_bad ps1 ln tok post x e hvm h1 hp
  · intro data ln pre post ps1 hread hlines hpre hlen hbad
    rw [captureCpu_eq h ps pid data _ hread hlines, captureCpuLines_append, hpre]
    exact captureCpuLines_bad ps1 ln post hlen hbad
  · intro sout ln lines e hout hlines hl hlen
    rw [capturePs_eq h ps pid sout lines hout hlines]
    exact (capturePsLines_err ps lines ln hl hlen).2 e
  · intro data lines e hread hlines hwf
    rw [captureVm_eq h ps pid data _ hread hlines]
    exact (captureVmLines_err lines ps hwf).2 e
  · intro data lines e hread hlines hwf
    rw [captureCpu_eq h ps pid data _ hread hlines]
    exact (captureCpuLines_err lines ps hwf).2 e

/-- C10, witness: a `ps` output whose vsz field is `-`, a status document whose
`VmRSS:` value is `abc` and is followed by a good `VmSize:` line, and a stat
line whose field 14 is `x`. -/
theorem parse_failure_is_hard_witness :
    capturePs (psHost "RSS VSZ TIME UTIME\n1024 - 0:15.00 0:05.00\n".toList) ⟨[], "/proc"⟩ 1
        = (.err (.num "ParseInt" "-".toList .invalid), ⟨[⟨"memory", "rss", 1048576⟩], "/proc"⟩)
    ∧ captureVm (procHost "Name:\tx\nVmRSS:\tabc kB\nVmSize:\t1 kB\n".toList) ⟨[], "/proc"⟩ 1
        = (.err (.num "ParseInt" "abc".toList .invalid), ⟨[], "/proc"⟩)
    ∧ ∃ e, captureCpu (procHost "1 (a) S 1 1 1 0 -1 0 0 0 0 0 7 x 3 2 20 0 1 0\n".toList)
        ⟨[], "/proc"⟩ 1 = (.err e, ⟨[], "/proc"⟩) :=
  ⟨((parse_failure_is_hard
        (psHost "RSS VSZ TIME UTIME\n1024 - 0:15.00 0:05.00\n".toList) ⟨[], "/proc"⟩ 1).1
      "RSS VSZ TIME UTIME\n1024 - 0:15.00 0:05.00\n".toList "1024 - 0:15.00 0:05.00".toList
      "1024".toList "-".toList ["RSS VSZ TIME UTIME".toList, "1024 - 0:15.00 0:05.00".toList]
      (by rfl) (by rfl) (by decide) (by decide) (by decide)).2 1024 0 _ (by decide) (by decide),
    (parse_failure_is_hard
        (procHost "Name:\tx\nVmRSS:\tabc kB\nVmSize:\t1 kB\n".toList) ⟨[], "/proc"⟩ 1).2.1
      "Name:\tx\nVmRSS:\tabc kB\nVmSize:\t1 kB\n".toList "VmRSS:\tabc kB".toList "abc".toList
      ["Name:\tx".toList] ["VmSize:\t1 kB".toList] ⟨[], "/proc"⟩ 0 _
      (by rfl) (by rfl) (by decide) ⟨by decide, Or.inl (by decide)⟩ (by decide) (by decide),
    (parse_failure_is_hard
        (procHost "1 (a) S 1 1 1 0 -1 0 0 0 0 0 7 x 3 2 20 0 1 0\n".toList) ⟨[], "/proc"⟩ 1).2.2.1
      "1 (a) S 1 1 1 0 -1 0 0 0 0 0 7 x 3 2 20 0 1 0\n".toList
      "1 (a) S 1 1 1 0 -1 0 0 0 0 0 7 x 3 2 20 0 1 0".toList [] [] ⟨[], "/proc"⟩
      (by rfl) (by rfl) (by decide) (by decide)
      ⟨14, "x".toList, by decide, by decide, by decide, by decide⟩⟩

/-! ## The shape of a fallback pass -/

/-- A pass that does not read the data line in full saves nothing, or the rss
gauge, or the rss and vsz gauges. -/
theorem capturePsLines_partial (ps : processStorage) (lines : List Text)
    (hno : ¬ ReadsAllFour lines) :
    ∃ new, (capturePsLines ps lines).2 = { ps with saved := ps.saved ++ new }
      ∧ (new = [] ∨ (∃ v, new = [⟨"memory", "rss", v⟩])
          ∨ ∃ v w, new = [⟨"memory", "rss", v⟩, ⟨"memory", "vsz", w⟩]) := by
  cases hl : lines[1]? with
  | none => exact ⟨[], by simp [capturePsLines, hl], Or.inl rfl⟩
  | some ln =>
  cases h0 : (Fields ln)[0]? with
  | none => exact ⟨[], by simp [capturePsLines, hl, h0], Or.inl rfl⟩
  | some f0 =>
  rcases p0 : ParseInt f0 64 with ⟨v, _ | e0⟩
  swap
  · exact ⟨[], by simp [capturePsLines, hl, h0, p0], Or.inl rfl⟩
  cases h1 : (Fields ln)[1]? with
  | none =>
    exact ⟨[⟨"memory", "rss", mulInt64 1024 v⟩],
      by simp [capturePsLines, hl, h0, p0, h1, processStorage.save],
      Or.inr (Or.inl ⟨_, rfl⟩)⟩
  | some f1 =>
  rcases p1 : ParseInt f1 64 with ⟨w, _ | e1⟩
  swap
  · exact ⟨[⟨"memory", "rss", mulInt64 1024 v⟩],
      by simp [capturePsLines, hl, h0, p0, h1, p1, processStorage.save],
      Or.inr (Or.inl ⟨_, rfl⟩)⟩
  cases h2 : (Fields ln)[2]? with
  | none =>
    exact ⟨[⟨"memory", "rss", mulInt64 1024 v⟩, ⟨"memory", "vsz", mulInt64 1024 w⟩],
      by simp [capturePsLines, hl, h0, p0, h1, p1, h2, processStorage.save],
      Or.inr (Or.inr ⟨_, _, rfl⟩)⟩
  | some f2 =>
  cases m2 : timeRegexp_FindStringSubmatch f2 with
  | none =>
    exact ⟨[⟨"memory", "rss", mulInt64 1024 v⟩, ⟨"memory", "vsz", mulInt64 1024 w⟩],
      by simp [capturePsLines, hl, h0, p0, h1, p1, h2, m2, processStorage.save],
      Or.inr (Or.inr ⟨_, _, rfl⟩)⟩
  | some t =>
  cases h3 : (Fields ln)[3]? with
  | none =>
    exact ⟨[⟨"memory", "rss", mulInt64 1024 v⟩, ⟨"memory", "vsz", mulInt64 1024 w⟩],
      by simp [capturePsLines, hl, h0, p0, h1, p1, h2, m2, h3, processStorage.save],
      Or.inr (Or.inr ⟨_, _, rfl⟩)⟩
  | some f3 =>
  cases m3 : timeRegexp_FindStringSubmatch f3 with
  | none =>
    exact ⟨[⟨"memory", "rss", mulInt64 1024 v⟩, ⟨"memory", "vsz", mulInt64 1024 w⟩],
      by simp [capturePsLines, hl, h0, p0, h1, p1, h2, m2, h3, m3,
      processStorage.save], Or.inr (Or.inr ⟨_, _, rfl⟩)⟩
  | some u =>
    exact absurd ⟨ln, f0, f1, f2, f3, v, w, t, u, hl, h0, p0, h1, p1, h2, m2, h3, m3⟩ hno

/-- A pass that reads the data line in full saves the two gauges and the two
cpu counters, in this order, and the user counter is not negative. -/
theorem capturePsLines_full (ps : processStorage) (lines : List Text)
    (hall : ReadsAllFour lines) :
    ∃ v w x y, capturePsLines ps lines = (.nil, { ps with saved := ps.saved ++
        [⟨"memory", "rss", v⟩, ⟨"memory", "vsz", w⟩, ⟨"cpu", "user", x⟩,
         ⟨"cpu", "system", y⟩] })
      ∧ 0 ≤ x := by
  obtain ⟨ln, f0, f1, f2, f3, v, w, t, u, hl, h0, p0, h1, p1, h2, m2, h3, m3⟩ := hall
  refine ⟨_, _, _, _,
    capturePsLines_all ps lines ln f0 f1 f2 f3 v w t u hl h0 p0 h1 p1 h2 m2 h3 m3, ?_⟩
  have hu : ticksOfMatch u < 2 ^ 63 :=
    lt_trans (ticksOfMatch_lt f3 u.1 u.2.1 u.2.2 m3) (by norm_num)
  rw [int64_of_lt _ hu]
  exact Int.natCast_nonneg _

/-- The saves of `capturePs`, whatever the host answers: none, or those of the
pass over the lines of the output. -/
theorem capturePs_saved (h : Host) (ps : processStorage) (pid : Int) :
    (capturePs h ps pid).2 = ps ∨ ∃ lines, capturePs h ps pid = capturePsLines ps lines := by
  unfold capturePs
  split
  · exact Or.inl rfl
  · split
    · exact Or.inl rfl
    · exact Or.inr ⟨_, rfl⟩

/-- The saves of `capturePs`, whatever the host answers, go to the four
metrics of the fallback path and nowhere else, and the store keeps its path. -/
theorem capturePs_new (h : Host) (ps : processStorage) (pid : Int) :
    ∃ new, (capturePs h ps pid).2 = { ps with saved := ps.saved ++ new }
      ∧ ∀ s ∈ new, IsFallbackKey s := by
  rcases capturePs_saved h ps pid with hsame | ⟨lines, hl⟩
  · exact ⟨[], by simp [hsame], by simp⟩
  · rw [hl]
    by_cases hall : ReadsAllFour lines
    · obtain ⟨v, w, x, y, e, -⟩ := capturePsLines_full ps lines hall
      refine ⟨_, by rw [e], ?_⟩
      intro s hs
      simp only [List.mem_cons, List.mem_singleton, List.not_mem_nil, or_false] at hs
      rcases hs with rfl | rfl | rfl | rfl <;> simp [IsFallbackKey]
    · obtain ⟨new, e, hnew⟩ := capturePsLines_partial ps lines hall
      refine ⟨new, e, ?_⟩
      rcases hnew with rfl | ⟨v, rfl⟩ | ⟨v, w, rfl⟩
      · simp
      · intro s hs
        simp only [List.mem_singleton] at hs
        subst hs
        simp [IsFallbackKey]
      · intro s hs
        simp only [List.mem_cons, List.mem_singleton, List.not_mem_nil, or_false] at hs
        rcases hs with rfl | rfl <;> simp [IsFallbackKey]

/-- Saves to other metrics leave the raw value of a metric as it was. -/
theorem rawValue_append (ps : processStorage) (new : List Sample) (family name : String)
    (hnew : ∀ s ∈ new, ¬ (s.family = family ∧ s.name = name)) :
    ({ ps with saved := ps.saved ++ new } : processStorage).rawValue family name
      = ps.rawValue family name := by
  have hnil : new.filter (fun s => s.family == family && s.name == name) = [] := by
    rw [List.filter_eq_nil_iff]
    intro s hs
    have := hnew s hs
    simpa using this
  simp [processStorage.rawValue, List.filter_append, hnil]

/-- A metric no save went to has the raw value zero. -/
theorem rawValue_of_no_save (ps : processStorage) (family name : String)
    (hnone : ∀ s ∈ ps.saved, ¬ (s.family = family ∧ s.name = name)) :
    ps.rawValue family name = 0 := by
  have hnil : ps.saved.filter (fun s => s.family == family && s.name == name) = [] := by
    rw [List.filter_eq_nil_iff]
    intro s hs
    have := hnone s hs
    simpa using this
  simp [processStorage.rawValue, hnil]

/-- A save of the fallback path is not a save of children's cumulative CPU. -/
theorem IsFallbackKey_not_total (s : Sample) (hs : IsFallbackKey s) :
    ¬ (s.family = "cpu" ∧ s.name = "total_user")
      ∧ ¬ (s.family = "cpu" ∧ s.name = "total_system") := by
  rcases hs with ⟨hf, hn | hn⟩ | ⟨hf, hn | hn⟩ <;> simp [hf, hn]

/-- With the root absent, every pass of a series of `Collect` calls keeps the
path and adds saves of the fallback path only. -/
theorem CollectAll_fallback (path : String) (runs : List (Host × Int)) :
    ∀ ps : processStorage, ps.path = path →
      (∀ r ∈ runs, r.1.FileExists path = .ok false) →
      (∀ s ∈ ps.saved, IsFallbackKey s) →
      ∀ s ∈ (CollectAll ps runs).saved, IsFallbackKey s := by
  induction runs with
  | nil => intro ps _ _ hsaved; simpa [CollectAll] using hsaved
  | cons r rest ih =>
    intro ps hpath habsent hsaved
    obtain ⟨h, pid⟩ := r
    have hprobe : h.FileExists ps.path = .ok false := by
      rw [hpath]; exact habsent (h, pid) (by simp)
    have hc : Collect h ps pid = capturePs h ps pid := by
      simp only [Collect, hprobe]
      split <;> simp_all
    obtain ⟨new, e, hnew⟩ := capturePs_new h ps pid
    simp only [CollectAll]
    refine ih _ ?_ (fun r hr => habsent r (by simp [hr])) ?_
    · rw [hc, e]; exact hpath
    · rw [hc, e]
      intro s hs
      simp only [List.mem_append] at hs
      rcases hs with hs | hs
      · exact hsaved s hs
      · exact hnew s hs

/-- C12: the fallback path never writes children's cumulative CPU. For every
host answer and every prior store, the saves of `capturePs` go to memory.rss,
memory.vsz, cpu.user and cpu.system only, so the raw values of cpu.total_user
and cpu.total_system are as they were; and after any series of `Collect` calls
on a new store with the root absent each time, no save went to another metric
and both raw values are still the initial zero. -/
theorem capturePs_frame (h : Host) (ps : processStorage) (pid : Int) :
    (∃ new, (capturePs h ps pid).2 = { ps with saved := ps.saved ++ new }
        ∧ ∀ s ∈ new, IsFallbackKey s)
    ∧ (capturePs h ps pid).2.rawValue "cpu" "total_user" = ps.rawValue "cpu" "total_user"
    ∧ (capturePs h ps pid).2.rawValue "cpu" "total_system" = ps.rawValue "cpu" "total_system"
    ∧ ∀ (path : String) (runs : List (Host × Int)),
        (∀ r ∈ runs, r.1.FileExists path = .ok false) →
        (∀ s ∈ (CollectAll (NewProcessStore path) runs).saved, IsFallbackKey s)
        ∧ (CollectAll (NewProcessStore path) runs).rawValue "cpu" "total_user" = 0
        ∧ (CollectAll (NewProcessStore path) runs).rawValue "cpu" "total_system" = 0 := by
  obtain ⟨new, e, hnew⟩ := capturePs_new h ps pid
  refine ⟨⟨new, e, hnew⟩, ?_, ?_, ?_⟩
  · rw [e]
    exact rawValue_append ps new _ _ (fun s hs => (IsFallbackKey_not_total s (hnew s hs)).1)
  · rw [e]
    exact rawValue_append ps new _ _ (fun s hs => (IsFallbackKey_not_total s (hnew s hs)).2)
  · intro path runs habsent
    have hkeys := CollectAll_fallback path runs (NewProcessStore path) rfl habsent
      (by simp [NewProcessStore])
    refine ⟨hkeys, ?_, ?_⟩
    · exact rawValue_of_no_save _ _ _ (fun s hs => (IsFallbackKey_not_total s (hkeys s hs)).1)
    · exact rawValue_of_no_save _ _ _ (fun s hs => (IsFallbackKey_not_total s (hkeys s hs)).2)

/-- C12, witness: two fallback passes of the example host on a new store. -/
theorem capturePs_frame_witness :
    (CollectAll (NewProcessStore "nonexistent") [(exampleHost, 9051), (exampleHost, 100)]).saved
        = [⟨"memory", "rss", 1048576⟩, ⟨"memory", "vsz", 324571136⟩, ⟨"cpu", "user", 500⟩,
           ⟨"cpu", "system", 1000⟩]
    ∧ (CollectAll (NewProcessStore "nonexistent")
        [(exampleHost, 9051), (exampleHost, 100)]).rawValue "cpu" "total_user" = 0 :=
  ⟨by decide,
    ((capturePs_frame exampleHost (NewProcessStore "nonexistent") 9051).2.2.2 "nonexistent"
      [(exampleHost, 9051), (exampleHost, 100)] (by
        intro r hr
        simp only [List.mem_cons, List.mem_singleton, List.not_mem_nil, or_false] at hr
        rcases hr with rfl | rfl <;> rfl)).2.1⟩

/-- C14: `captureCpu` is all-or-nothing for a stat record. For every stat
document of one line with at least 17 fields, either the fields 13 to 16 all
parse and the four counters cpu.user, cpu.system, cpu.total_user and
cpu.total_system are saved with `nil` returned, or the error of the first of
these fields that does not parse is returned and the store is unchanged: the
four fields are parsed before the first save. -/
theorem captureCpu_all_or_nothing (h : Host) (ps : processStorage) (pid : Int)
    (data ln : Text)
    (hread : h.ReadFile (ps.path ++ "/" ++ Itoa pid ++ "/stat") = .ok data)
    (hlines : h.ReadLines data = .ok [ln]) (hlen : 17 ≤ (Fields ln).length) :
    (∃ f13 f14 f15 f16 utime stime cutime cstime,
        (Fields ln)[13]? = some f13 ∧ ParseInt f13 64 = (utime, none)
        ∧ (Fields ln)[14]? = some f14 ∧ ParseInt f14 64 = (stime, none)
        ∧ (Fields ln)[15]? = some f15 ∧ ParseInt f15 64 = (cutime, none)
        ∧ (Fields ln)[16]? = some f16 ∧ ParseInt f16 64 = (cstime, none)
        ∧ captureCpu h ps pid = (.nil, { ps with saved := ps.saved ++
            [⟨"cpu", "user", utime⟩, ⟨"cpu", "system", stime⟩,
             ⟨"cpu", "total_user", cutime⟩, ⟨"cpu", "total_system", cstime⟩] }))
    ∨ (∃ e, captureCpu h ps pid = (.err e, ps)
        ∧ ∃ k f, 13 ≤ k ∧ k ≤ 16 ∧ (Fields ln)[k]? = some f ∧ (ParseInt f 64).2 = some e) := by
  obtain ⟨f13, h13⟩ := getElem?_of_lt (Fields ln) 13 (by omega)
  obtain ⟨f14, h14⟩ := getElem?_of_lt (Fields ln) 14 (by omega)
  obtain ⟨f15, h15⟩ := getElem?_of_lt (Fields ln) 15 (by omega)
  obtain ⟨f16, h16⟩ := getElem?_of_lt (Fields ln) 16 (by omega)
  rw [captureCpu_eq h ps pid data _ hread hlines]
  rcases p13 : ParseInt f13 64 with ⟨x13, _ | e13⟩
  swap
  · exact Or.inr ⟨e13, by simp [captureCpuLines, h13, p13],
      13, f13, by omega, by omega, h13, by simp [p13]⟩
  rcases p14 : ParseInt f14 64 with ⟨x14, _ | e14⟩
  swap
  · exact Or.inr ⟨e14, by simp [captureCpuLines, h13, p13, h14, p14],
      14, f14, by omega, by omega, h14, by simp [p14]⟩
  rcases p15 : ParseInt f15 64 with ⟨x15, _ | e15⟩
  swap
  · exact Or.inr ⟨e15, by simp [captureCpuLines, h13, p13, h14, p14, h15, p15],
      15, f15, by omega, by omega, h15, by simp [p15]⟩
  rcases p16 : ParseInt f16 64 with ⟨x16, _ | e16⟩
  swap
  · exact Or.inr ⟨e16, by simp [captureCpuLines, h13, p13, h14, p14, h15, p15, h16, p16],
      16, f16, by omega, by omega, h16, by simp [p16]⟩
  exact Or.inl ⟨f13, f14, f15, f16, x13, x14, x15, x16, h13, p13, h14, p14, h15, p15, h16, p16,
    by simp [captureCpuLines, h13, p13, h14, p14, h15, p15, h16, p16, processStorage.save]⟩

/-- C14, witness: a stat line whose field 16 is `x`, after three fields that
parse: an error is returned and nothing is saved. -/
theorem captureCpu_all_or_nothing_witness :
    17 ≤ (Fields "1 (a) S 1 1 1 0 -1 0 0 0 0 0 7 8 9 x 20 0 1 0".toList).length
    ∧ ∃ e, captureCpu (procHost "1 (a) S 1 1 1 0 -1 0 0 0 0 0 7 8 9 x 20 0 1 0\n".toList)
          ⟨[], "/proc"⟩ 1 = (.err e, ⟨[], "/proc"⟩) :=
  ⟨by decide, by
    have hval : captureCpu (procHost "1 (a) S 1 1 1 0 -1 0 0 0 0 0 7 8 9 x 20 0 1 0\n".toList)
        ⟨[], "/proc"⟩ 1 = (.err (.num "ParseInt" "x".toList .invalid), ⟨[], "/proc"⟩) := by
      decide
    rcases captureCpu_all_or_nothing
      (procHost "1 (a) S 1 1 1 0 -1 0 0 0 0 0 7 8 9 x 20 0 1 0\n".toList) ⟨[], "/proc"⟩ 1
      "1 (a) S 1 1 1 0 -1 0 0 0 0 0 7 8 9 x 20 0 1 0\n".toList
      "1 (a) S 1 1 1 0 -1 0 0 0 0 0 7 8 9 x 20 0 1 0".toList (by rfl) (by rfl) (by decide)
      with ⟨_, _, _, _, _, _, _, _, _, _, _, _, _, _, _, _, he⟩ | ⟨e, he, _⟩
    · rw [hval] at he
      exact absurd (congrArg Prod.fst he) (by simp)
    · exact ⟨e, he⟩⟩

/-- A non-empty run of digits whose value fits in `bitSize` bits parses without
error to that value. -/
theorem ParseUint_exact (g : Text) (b : Nat) (hne : g ≠ []) (hall : g.all isDigit = true)
    (hfit : decimal g < 2 ^ b) : ParseUint g b = (decimal g, none) := by
  unfold ParseUint
  rw [if_neg hne]
  exact ParseUintFrom_exact g b g 0 hall hfit

/-- The value saved as cpu.user by `capturePs` is never negative. -/
theorem capturePs_user_nonneg (h : Host) (ps : processStorage) (pid : Int) :
    ∃ new, (capturePs h ps pid).2 = { ps with saved := ps.saved ++ new }
      ∧ ∀ s ∈ new, s.family = "cpu" → s.name = "user" → 0 ≤ s.value := by
  rcases capturePs_saved h ps pid with hsame | ⟨lines, hl⟩
  · exact ⟨[], by simp [hsame], by simp⟩
  · rw [hl]
    by_cases hall : ReadsAllFour lines
    · obtain ⟨v, w, x, y, e, hx⟩ := capturePsLines_full ps lines hall
      refine ⟨_, by rw [e], ?_⟩
      intro s hs hf hn
      simp only [List.mem_cons, List.mem_singleton, List.not_mem_nil, or_false] at hs
      rcases hs with rfl | rfl | rfl | rfl
      · simp at hf
      · simp at hf
      · exact hx
      · simp at hn
    · obtain ⟨new, e, hnew⟩ := capturePsLines_partial ps lines hall
      refine ⟨new, e, ?_⟩
      intro s hs hf hn
      rcases hnew with rfl | ⟨v, rfl⟩ | ⟨v, w, rfl⟩
      · simp at hs
      · simp only [List.mem_singleton] at hs
        subst hs
        simp at hf
      · simp only [List.mem_cons, List.mem_singleton, List.not_mem_nil, or_false] at hs
        rcases hs with rfl | rfl <;> simp at hf

/-- C15: for every time field accepted by `timeRegexp`, the seconds and the
centiseconds group have exactly two digits and parse without error to values
of at most 99, and the minutes value used is at most `2^32 - 1`; hence no step
of the `uint64` arithmetic `min*60*100 + sec*100 + cs` wraps, the tick count
is this sum and is at most `(2^32 - 1)*6000 + 9999`, which is below `2^63`, its
conversion to `int64` is not negative, and the value `capturePs` saves as
cpu.user is never negative. -/
theorem ticks_never_wrap (f g1 g2 g3 : Text)
    (hm : timeRegexp_FindStringSubmatch f = some (g1, g2, g3)) :
    (g2.length = 2 ∧ g3.length = 2)
    ∧ (ParseUint g2 32 = (decimal g2, none) ∧ decimal g2 ≤ 99)
    ∧ (ParseUint g3 32 = (decimal g3, none) ∧ decimal g3 ≤ 99)
    ∧ (ParseUint g1 32).1 ≤ 2 ^ 32 - 1
    ∧ ((ParseUint g1 32).1 * 60 < 2 ^ 64
        ∧ (ParseUint g1 32).1 * 60 * 100 < 2 ^ 64
        ∧ decimal g2 * 100 < 2 ^ 64
        ∧ (ParseUint g1 32).1 * 60 * 100 + decimal g2 * 100 < 2 ^ 64
        ∧ (ParseUint g1 32).1 * 60 * 100 + decimal g2 * 100 + decimal g3 < 2 ^ 64)
    ∧ ticksOfMatch (g1, g2, g3)
        = (ParseUint g1 32).1 * 60 * 100 + decimal g2 * 100 + decimal g3
    ∧ ticksOfMatch (g1, g2, g3) ≤ (2 ^ 32 - 1) * 6000 + 9999
    ∧ (2 ^ 32 - 1) * 6000 + 9999 < 2 ^ 63
    ∧ 0 ≤ int64 (ticksOfMatch (g1, g2, g3))
    ∧ ∀ (h : Host) (ps : processStorage) (pid : Int),
        ∃ new, (capturePs h ps pid).2 = { ps with saved := ps.saved ++ new }
          ∧ ∀ s ∈ new, s.family = "cpu" → s.name = "user" → 0 ≤ s.value := by
  obtain ⟨s1, s2, d, c1, c2, rfl, rfl, -, hne, hall, hs1, hs2, -, hc1, hc2⟩ :=
    (timeRegexp_match_iff f g1 g2 g3).1 hm
  have h2 := decimal_pair_le s1 s2 hs1 hs2
  have h3 := decimal_pair_le c1 c2 hc1 hc2
  have e1 := ParseUint_digits g1 32 hne hall
  have hmin : (ParseUint g1 32).1 ≤ 2 ^ 32 - 1 := by rw [e1]; exact min_le_right _ _
  have e2 : ParseUint [s1, s2] 32 = (decimal [s1, s2], none) :=
    ParseUint_exact _ 32 (by simp) (by simp [hs1, hs2]) (by norm_num; omega)
  have e3 : ParseUint [c1, c2] 32 = (decimal [c1, c2], none) :=
    ParseUint_exact _ 32 (by simp) (by simp [hc1, hc2]) (by norm_num; omega)
  have et : ticksOfMatch (g1, [s1, s2], [c1, c2])
      = (ParseUint g1 32).1 * 60 * 100 + decimal [s1, s2] * 100 + decimal [c1, c2] := by
    unfold ticksOfMatch
    simp only [e2, e3]
    exact ticksOf_exact _ _ _ hmin h2 h3
  have hle : ticksOfMatch (g1, [s1, s2], [c1, c2]) ≤ (2 ^ 32 - 1) * 6000 + 9999 := by
    rw [et]; norm_num at hmin ⊢; omega
  have hlt : ticksOfMatch (g1, [s1, s2], [c1, c2]) < 2 ^ 63 :=
    lt_of_le_of_lt hle (by norm_num)
  refine ⟨⟨rfl, rfl⟩, ⟨e2, h2⟩, ⟨e3, h3⟩, hmin, ?_, et, hle, by norm_num, ?_,
    capturePs_user_nonneg⟩
  · norm_num at hmin ⊢
    omega
  · rw [int64_of_lt _ hlt]
    exact Int.natCast_nonneg _

/-- C15, witness: the time field `0:15.00` of the example `ps` output. -/
theorem ticks_never_wrap_witness :
    timeRegexp_FindStringSubmatch "0:15.00".toList
        = some ("0".toList, "15".toList, "00".toList)
    ∧ ticksOfMatch ("0".toList, "15".toList, "00".toList) ≤ (2 ^ 32 - 1) * 6000 + 9999 :=
  ⟨by decide, (ticks_never_wrap "0:15.00".toList "0".toList "15".toList "00".toList
    (by decide)).2.2.2.2.2.2.1⟩

/-- In a record of saves that starts with the rss gauge and holds the vsz gauge
only in second place, the vsz gauge comes after the rss gauge. -/
theorem vsz_after_rss (a : Sample) (tail : List Sample)
    (ha : a.family = "memory" ∧ a.name = "rss") :
    ∀ pre s post, a :: tail = pre ++ s :: post → s.family = "memory" → s.name = "vsz" →
      ∃ r ∈ pre, r.family = "memory" ∧ r.name = "rss" := by
  intro pre s post hsplit _ hn
  cases pre with
  | nil =>
    simp only [List.nil_append, List.cons.injEq] at hsplit
    rw [← hsplit.1, ha.2] at hn
    exact absurd hn (by decide)
  | cons p pre =>
    simp only [List.cons_append, List.cons.injEq] at hsplit
    exact ⟨p, by simp, by rw [← hsplit.1]; exact ha⟩

/-- C16: in `capturePs` the two cpu counters are saved together or not at all.
For every answer of the host, cpu.user is saved in the pass exactly when
cpu.system is, and that is exactly when the command gave an output whose data
line is read in full (both memory fields parse and both time fields are
accepted); and memory.vsz is saved only after memory.rss was saved in the same
pass. -/
theorem cpu_counters_saved_together (h : Host) (ps : processStorage) (pid : Int) :
    ∃ new, (capturePs h ps pid).2 = { ps with saved := ps.saved ++ new }
      ∧ ((∃ s ∈ new, s.family = "cpu" ∧ s.name = "user")
          ↔ ∃ s ∈ new, s.family = "cpu" ∧ s.name = "system")
      ∧ ((∃ s ∈ new, s.family = "cpu" ∧ s.name = "user")
          ↔ ∃ sout lines,
              h.CombinedOutput ["So", "rss,vsz,time,utime", "-p", Itoa pid] = .ok sout
              ∧ h.ReadLines sout = .ok lines ∧ ReadsAllFour lines)
      ∧ ∀ pre s post, new = pre ++ s :: post → s.family = "memory" → s.name = "vsz" →
          ∃ r ∈ pre, r.family = "memory" ∧ r.name = "rss" := by
  have hnone : ∀ (P : Prop), ¬ P →
      (capturePs h ps pid).2 = { ps with saved := ps.saved ++ [] } →
      (((∃ s ∈ ([] : List Sample), s.family = "cpu" ∧ s.name = "user")
          ↔ ∃ s ∈ ([] : List Sample), s.family = "cpu" ∧ s.name = "system")
        ∧ ((∃ s ∈ ([] : List Sample), s.family = "cpu" ∧ s.name = "user") ↔ P)
        ∧ ∀ pre s post, ([] : List Sample) = pre ++ s :: post → s.family = "memory" →
            s.name = "vsz" → ∃ r ∈ pre, r.family = "memory" ∧ r.name = "rss") := by
    intro P hP _
    refine ⟨by simp, by simp [hP], ?_⟩
    intro pre s post hsplit
    simp at hsplit
  cases hout : h.CombinedOutput ["So", "rss,vsz,time,utime", "-p", Itoa pid] with
  | error e =>
    have e0 : (capturePs h ps pid).2 = { ps with saved := ps.saved ++ [] } := by
      simp [capturePs, hout]
    exact ⟨[], e0, hnone _ (by simp) e0⟩
  | ok sout =>
  cases hlines : h.ReadLines sout with
  | error e =>
    have e0 : (capturePs h ps pid).2 = { ps with saved := ps.saved ++ [] } := by
      simp [capturePs, hout, hlines]
    refine ⟨[], e0, hnone _ ?_ e0⟩
    rintro ⟨sout1, lines1, h1, h2, -⟩
    cases h1
    rw [hlines] at h2
    cases h2
  | ok lines =>
  have hiff : (∃ sout1 lines1, Except.ok sout = (Except.ok sout1 : Except GoError Text)
      ∧ h.ReadLines sout1 = .ok lines1 ∧ ReadsAllFour lines1) ↔ ReadsAllFour lines := by
    constructor
    · rintro ⟨sout1, lines1, h1, h2, h3⟩
      cases h1
      rw [hlines] at h2
      cases h2
      exact h3
    · intro h3
      exact ⟨sout, lines, rfl, hlines, h3⟩
  rw [capturePs_eq h ps pid sout lines hout hlines, hiff]
  by_cases hall : ReadsAllFour lines
  · obtain ⟨v, w, x, y, e, -⟩ := capturePsLines_full ps lines hall
    refine ⟨_, by rw [e], ?_, ?_, vsz_after_rss _ _ ⟨rfl, rfl⟩⟩
    · simp
    · simp [hall]
  · obtain ⟨new, e, hnew⟩ := capturePsLines_partial ps lines hall
    refine ⟨new, e, ?_⟩
    rcases hnew with rfl | ⟨v, rfl⟩ | ⟨v, w, rfl⟩
    · refine ⟨by simp, by simp [hall], ?_⟩
      intro pre s post hsplit
      simp at hsplit
    · exact ⟨by simp, by simp [hall], vsz_after_rss _ _ ⟨rfl, rfl⟩⟩
    · exact ⟨by simp, by simp [hall], vsz_after_rss _ _ ⟨rfl, rfl⟩⟩

/-- C16, witness: the example host answering for process 9051 (all four fields
read) and for process 100 (the command fails). -/
theorem cpu_counters_saved_together_witness :
    (∃ new, (capturePs exampleHost ⟨[], "nonexistent"⟩ 9051).2 = ⟨[] ++ new, "nonexistent"⟩
        ∧ ((∃ s ∈ new, s.family = "cpu" ∧ s.name = "user")
            ↔ ∃ s ∈ new, s.family = "cpu" ∧ s.name = "system"))
    ∧ (capturePs exampleHost ⟨[], "nonexistent"⟩ 9051).2.saved
        = [⟨"memory", "rss", 1048576⟩, ⟨"memory", "vsz", 324571136⟩, ⟨"cpu", "user", 500⟩,
           ⟨"cpu", "system", 1000⟩]
    ∧ (capturePs exampleHost ⟨[], "nonexistent"⟩ 100).2.saved = [] :=
  ⟨(cpu_counters_saved_together exampleHost ⟨[], "nonexistent"⟩ 9051).elim
      fun new hnew => ⟨new, hnew.1, hnew.2.1⟩,
    by decide, by decide⟩

/-! ## Missing length checks -/

/-- An empty line stops the loop of `captureVm` with a panic: the test
`line[0] == 'V'` indexes it. -/
theorem captureVmLines_empty_line (ps : processStorage) (rest : List Text) :
    captureVmLines ps ([] :: rest) = (.panic, ps) := by
  simp [captureVmLines]

/-- A line that is not empty and from which `captureVm` reads no value is
skipped: no save, no error, no panic. -/
theorem captureVmLines_skip (ps : processStorage) (ln : Text) (rest : List Text)
    (hne : ln ≠ []) (hno : ¬ IsVmLine ln) :
    captureVmLines ps (ln :: rest) = captureVmLines ps rest := by
  obtain ⟨c, hc⟩ : ∃ c, ln[0]? = some c := by
    cases ln with
    | nil => exact absurd rfl hne
    | cons c cs => exact ⟨c, by simp⟩
  by_cases hV : c = 'V'
  · subst hV
    obtain ⟨label, hlab⟩ := Fields_head_of_V ln hc
    have hr : label ≠ "VmRSS:".toList := fun hr => hno ⟨hc, Or.inl (hr ▸ hlab)⟩
    have hs : label ≠ "VmSize:".toList := fun hs => hno ⟨hc, Or.inr (hs ▸ hlab)⟩
    simp only [captureVmLines, hc, hlab, if_true]
    rw [if_neg hr, if_neg hs]
  · simp [captureVmLines, hc, hV]

/-- On a status document without empty lines, `captureVm` does what it does on
the lines it reads a value from alone: same result, same saves. -/
theorem captureVmLines_filter (lines : List Text) :
    ∀ ps : processStorage, (∀ ln ∈ lines, ln ≠ []) →
      captureVmLines ps lines
        = captureVmLines ps (lines.filter (fun ln => decide (IsVmLine ln))) := by
  induction lines with
  | nil => intro ps _; rfl
  | cons ln rest ih =>
    intro ps hne
    have hrest : ∀ l ∈ rest, l ≠ [] := fun l hl => hne l (by simp [hl])
    by_cases hvm : IsVmLine ln
    · rw [List.filter_cons_of_pos (by simpa using hvm)]
      simp only [captureVmLines]
      repeat' split
      all_goals first
        | rfl
        | exact ih _ hrest
    · rw [List.filter_cons_of_neg (by simpa using hvm),
        captureVmLines_skip ps ln rest (hne ln (by simp)) hvm]
      exact ih ps hrest

/-- When the fallback pass panics on an output that has a second line: the
data line runs out of fields before the pass has returned. It has no field; or
one field, which parses; or two fields, which parse; or three fields, of which
the first two parse and the third matches the duration pattern. -/
theorem capturePsLines_panic_iff (ps : processStorage) (lines : List Text) (ln : Text)
    (hl : lines[1]? = some ln) :
    (capturePsLines ps lines).1 = .panic ↔
      Fields ln = []
      ∨ (∃ f0 v, Fields ln = [f0] ∧ ParseInt f0 64 = (v, none))
      ∨ (∃ f0 f1 v w, Fields ln = [f0, f1] ∧ ParseInt f0 64 = (v, none)
          ∧ ParseInt f1 64 = (w, none))
      ∨ (∃ f0 f1 f2 v w t, Fields ln = [f0, f1, f2] ∧ ParseInt f0 64 = (v, none)
          ∧ ParseInt f1 64 = (w, none) ∧ timeRegexp_FindStringSubmatch f2 = some t) := by
  rcases hf : Fields ln with _ | ⟨f0, fs1⟩
  · simp [capturePsLines, hl, hf]
  rcases p0 : ParseInt f0 64 with ⟨v, _ | e0⟩
  swap
  · simp [capturePsLines, hl, hf, p0]
    constructor <;> (intros; subst_vars; simp_all)
  rcases fs1 with _ | ⟨f1, fs2⟩
  · simp [capturePsLines, hl, hf, p0]
  rcases p1 : ParseInt f1 64 with ⟨w, _ | e1⟩
  swap
  · simp [capturePsLines, hl, hf, p0, p1]
    intros; subst_vars; simp_all
  rcases fs2 with _ | ⟨f2, fs3⟩
  · simp [capturePsLines, hl, hf, p0, p1]
    exact ⟨f0, f1, ⟨rfl, rfl⟩, ⟨v, p0⟩, ⟨w, p1⟩⟩
  cases m2 : timeRegexp_FindStringSubmatch f2 with
  | none => simp [capturePsLines, hl, hf, p0, p1, m2]
  | some t =>
  rcases fs3 with _ | ⟨f3, fs4⟩
  · simp [capturePsLines, hl, hf, p0, p1, m2]
    exact ⟨f0, f1, f2, ⟨rfl, rfl, rfl⟩, ⟨v, p0⟩, ⟨w, p1⟩, ⟨t.1, t.2.1, t.2.2, m2⟩⟩
  cases m3 : timeRegexp_FindStringSubmatch f3 with
  | none => simp [capturePsLines, hl, hf, p0, p1, m2, m3]
  | some u => simp [capturePsLines, hl, hf, p0, p1, m2, m3]

/-- An output of fewer than two lines makes `capturePs` panic, with nothing
saved. -/
theorem capturePsLines_short (ps : processStorage) (lines : List Text)
    (hshort : lines.length < 2) : capturePsLines ps lines = (.panic, ps) := by
  have hl : lines[1]? = none := List.getElem?_eq_none (by omega)
  simp [capturePsLines, hl]

/-- Witness: the example status document has no empty line, and is processed as
its two recognised lines alone. -/
theorem captureVmLines_filter_witness :
    (∀ ln ∈ splitLines exampleStatus, ln ≠ [])
    ∧ captureVmLines ⟨[], "proc"⟩ (splitLines exampleStatus)
        = captureVmLines ⟨[], "proc"⟩
            ((splitLines exampleStatus).filter (fun ln => decide (IsVmLine ln))) :=
  ⟨by decide, captureVmLines_filter (splitLines exampleStatus) ⟨[], "proc"⟩ (by decide)⟩

/-- Witness: a data line of three fields, of which the first two parse and the
third matches; the pass panics. -/
theorem capturePsLines_panic_iff_witness :
    ["RSS VSZ TIME UTIME".toList, "1024 2048 0:15.00".toList][1]?
        = some "1024 2048 0:15.00".toList
    ∧ (capturePsLines ⟨[], "/proc"⟩
        ["RSS VSZ TIME UTIME".toList, "1024 2048 0:15.00".toList]).1 = .panic :=
  ⟨by decide,
    (capturePsLines_panic_iff ⟨[], "/proc"⟩
      ["RSS VSZ TIME UTIME".toList, "1024 2048 0:15.00".toList] "1024 2048 0:15.00".toList
      (by decide)).2
      (Or.inr (Or.inr (Or.inr ⟨"1024".toList, "2048".toList, "0:15.00".toList, 1024, 2048,
        ("0".toList, "15".toList, "00".toList), by decide, by decide, by decide, by decide⟩)))⟩

/-- C11, the code at a failing input: in the status document made of the lines
`Name:\tx`, an empty line and `VmRSS:\t1 kB`, the empty line is not ignored.
`captureVm` panics on it at `line[0]`, and `Collect` with it; the `VmRSS:` line
after it is not read and nothing is saved. Without the empty line the document
is read to the end and memory.rss is saved. -/
theorem captureVm_empty_line_evaluated :
    splitLines "Name:\tx\n\nVmRSS:\t1 kB\n".toList
        = ["Name:\tx".toList, [], "VmRSS:\t1 kB".toList]
    ∧ captureVm (procHost "Name:\tx\n\nVmRSS:\t1 kB\n".toList) ⟨[], "/proc"⟩ 1
        = (.panic, ⟨[], "/proc"⟩)
    ∧ Collect (procHost "Name:\tx\n\nVmRSS:\t1 kB\n".toList) ⟨[], "/proc"⟩ 1
        = (.panic, ⟨[], "/proc"⟩)
    ∧ captureVm (procHost "Name:\tx\nVmRSS:\t1 kB\n".toList) ⟨[], "/proc"⟩ 1
        = (.nil, ⟨[⟨"memory", "rss", 1024⟩], "/proc"⟩) := by
  decide

/-- C13, the code at failing inputs: on an output that is only the header
line, and on an empty output, `capturePs` panics at `lines[1]`, and `Collect`
with it; on a data line of three fields `1024 2048 0:15.00` it panics at
`fields[3]` after the two memory gauges were saved. No error is returned. -/
theorem capturePs_short_output_evaluated :
    capturePs (psHost "RSS VSZ TIME UTIME\n".toList) ⟨[], "/proc"⟩ 1
        = (.panic, ⟨[], "/proc"⟩)
    ∧ capturePs (psHost []) ⟨[], "/proc"⟩ 1 = (.panic, ⟨[], "/proc"⟩)
    ∧ Collect (psHost "RSS VSZ TIME UTIME\n".toList) ⟨[], "/proc"⟩ 1
        = (.panic, ⟨[], "/proc"⟩)
    ∧ capturePs (psHost "RSS VSZ TIME UTIME\n1024 2048 0:15.00\n".toList) ⟨[], "/proc"⟩ 1
        = (.panic, ⟨[⟨"memory", "rss", 1048576⟩, ⟨"memory", "vsz", 2097152⟩], "/proc"⟩) := by
  decide

end metrics
